import Mathlib

/-!
# Verification of the tinyconf convergence engine

A shallow embedding, in Lean 4, of the core of `tinyconf`
(github.com/bakins/tinyconf): the task executor, the four resource
reconcilers (file, directory, package, service), the run orchestrator with
its notify aggregation, the restart protocol, the configuration validator,
and the systemd service manager's masked-unit retry logic.

Conventions of the embedding:
* Go machine integers (uids, gids, permission bits) become `Nat`/`Int`.
* Stateful Go code becomes explicit state passing over `SysState`
  (an abstract filesystem plus in-memory package / service capability
  state, matching the capability contract that the repository's fakes
  implement).
* Fallible code returns `Except String` or `Option String` errors; a Go
  `(value, error)` pair whose side effects persist becomes
  `Except String value × σ`.
* The filesystem is a flat association list from path to entry; directory
  hierarchy constraints (parent existence) are abstracted away, and the
  process umask is taken to be zero.
-/

/-- The nine POSIX permission bits together with the three special bits,
the part of Go's `os.FileMode` that the reconcilers read or write
(`file.go`, `directory.go`).  `perm` holds the value of the nine
permission bits. -/
structure FileMode where
  perm : Nat
  suid : Bool
  sgid : Bool
  sticky : Bool
deriving DecidableEq, Repr

/-- The projection `FileMode.Perm` mirrors Go's `FileMode.Perm()`: the nine permission
bits only (`mode & 0o777`). -/
def FileMode.Perm (m : FileMode) : Nat := m.perm % 512

/-- A plain mode with only permission bits. -/
def FileMode.ofPerm (p : Nat) : FileMode := ⟨p, false, false, false⟩

/-- The mode actually recorded on disk when a `FileMode` is handed to
`chmod`/`open`: Go's `syscallMode` keeps the nine permission bits and the
three special flags, nothing else (umask assumed zero). -/
def applyChmod (m : FileMode) : FileMode := ⟨m.Perm, m.suid, m.sgid, m.sticky⟩

/-- Constant `defaultFileMode` from `file.go`: `0o644`. -/
def defaultFileMode : FileMode := FileMode.ofPerm 0o644

/-- Constant `defaultDirMode` from `directory.go`: `0o755`. -/
def defaultDirMode : FileMode := FileMode.ofPerm 0o755

/-- One filesystem entry: the `syscall.Stat_t` fields the reconcilers
consult (uid, gid, mode, directory flag) plus, for regular files, the
byte contents (modelled as a string, as in the repository). -/
structure Entry where
  uid : Nat
  gid : Nat
  mode : FileMode
  isDir : Bool
  contents : String
deriving DecidableEq, Repr

/-- The filesystem: a flat association list from absolute path to entry. -/
def Fs := List (String × Entry)
deriving DecidableEq, Repr

/-- Model of `os.Stat` on the flat filesystem (first match wins). -/
def lookupFs : Fs → String → Option Entry
  | [], _ => none
  | (k, v) :: rest, p => if k = p then some v else lookupFs rest p

/-- Create or replace the entry at a path. -/
def setFs : Fs → String → Entry → Fs
  | [], p, e => [(p, e)]
  | (k, v) :: rest, p, e =>
    if k = p then (p, e) :: rest else (k, v) :: setFs rest p e

/-- Remove every entry at a path (`os.Remove`). -/
def eraseFs : Fs → String → Fs
  | [], _ => []
  | (k, v) :: rest, p =>
    if k = p then eraseFs rest p else (k, v) :: eraseFs rest p

/-- The whole observable system state: filesystem, installed-state of
packages and running-state of services.  The package and service maps
model the in-memory capability managers of the repository's capability
contract (absent key = not installed / not running). -/
structure SysState where
  fs : Fs
  pkgs : List (String × Bool)
  svcs : List (String × Bool)
deriving DecidableEq, Repr

/-- Lookup in a name-to-Bool capability map, defaulting to `false`. -/
def lookupBool : List (String × Bool) → String → Bool
  | [], _ => false
  | (k, v) :: rest, p => if k = p then v else lookupBool rest p

/-- Set a name in a capability map. -/
def setBool : List (String × Bool) → String → Bool → List (String × Bool)
  | [], p, b => [(p, b)]
  | (k, v) :: rest, p, b =>
    if k = p then (p, b) :: rest else (k, v) :: setBool rest p b

/-- Environment of one run: the user and group databases consulted by
`getUserAndGroup`, the uid/gid newly created files receive, and the fresh
name `os.CreateTemp` picks inside the target's directory. -/
structure Env where
  users : List (String × Nat)
  groups : List (String × Nat)
  procUid : Nat
  procGid : Nat
  tmpName : String
deriving DecidableEq, Repr

/-- Lookup in the user/group database. -/
def lookupId : List (String × Nat) → String → Option Nat
  | [], _ => none
  | (k, v) :: rest, p => if k = p then some v else lookupId rest p

/-- One half of `getUserAndGroup` (`config.go`): a `nil` or empty name
means unmanaged (`-1`); otherwise the name must resolve. -/
def resolveId (db : List (String × Nat)) (name : Option String) (kind : String) :
    Except String Int :=
  match name with
  | none => .ok (-1)
  | some n =>
    if n = "" then .ok (-1)
    else
      match lookupId db n with
      | some id => .ok (Int.ofNat id)
      | none => .error ("unble to determine id for " ++ kind ++ " " ++ n)

/-- Function `getUserAndGroup` from `config.go`: resolve the optional owner and
group names to numeric ids before any step runs; either lookup failing
aborts the reconciler. -/
def getUserAndGroup (env : Env) (username groupname : Option String) :
    Except String (Int × Int) :=
  match resolveId env.users username "user" with
  | .error e => .error e
  | .ok userID =>
    match resolveId env.groups groupname "group" with
    | .error e => .error e
    | .ok groupID => .ok (userID, groupID)

/-- A convergence step: Go's `func() (bool, error)` closing over the
world, i.e. a state transformer returning (changed, error). -/
def ConvTask (σ : Type) := σ → Bool × Option String × σ

/-- The loop body of `runTasks` (`config.go`), with the accumulated
`changed` flag made explicit: run each task in order, fold `changed`
(`if c {changed = c}`), stop at the first error and return it with the
accumulation so far. -/
def runTasksAux {σ : Type} : List (ConvTask σ) → Bool → σ → Bool × Option String × σ
  | [], changed, s => (changed, none, s)
  | t :: rest, changed, s =>
    match t s with
    | (c, some e, s') => ((if c then true else changed), some e, s')
    | (c, none, s') => runTasksAux rest (if c then true else changed) s'

/-- Function `runTasks` from `config.go`, the shared task executor. -/
def runTasks {σ : Type} (tasks : List (ConvTask σ)) (s : σ) : Bool × Option String × σ :=
  runTasksAux tasks false s

/-- A scripted step: an identifying label, the changed flag it reports
and the error it returns. -/
def StepSpec := Nat × Bool × Option String

/-- Turn a scripted step into a task over a trace of executed labels:
running it appends its label once and reports its scripted outcome. -/
def mkStep (s : StepSpec) : ConvTask (List Nat) :=
  fun log => (s.2.1, s.2.2, log ++ [s.1])

/-- The steps the executor is supposed to execute: every step up to and
including the first one returning an error. -/
def executedSteps : List StepSpec → List StepSpec
  | [] => []
  | s :: rest =>
    match s.2.2 with
    | some _ => [s]
    | none => s :: executedSteps rest

/-- The OR of the changed flags of a list of scripted steps. -/
def orChanged (l : List StepSpec) : Bool :=
  l.foldr (fun s acc => s.2.1 || acc) false

/-- The first error a list of scripted steps returns, if any. -/
def firstErr : List StepSpec → Option String
  | [] => none
  | s :: rest =>
    match s.2.2 with
    | some e => some e
    | none => firstErr rest

/-- The `runner` interface of `config.go`: given the world, return the
service to notify (empty for none) or an error; side effects persist
either way. -/
def Runner (σ : Type) := σ → Except String String × σ

/-- The update of `runRunners`' accumulator for one returned service
name (`if service != "" { if !slices.Contains(out, service) { append } }`):
append it only when it is non-empty and not already present. -/
def addIfAbsent (out : List String) (n : String) : List String :=
  if n ≠ "" ∧ n ∉ out then out ++ [n] else out

/-- The loop of `runRunners` (`config.go`) with its `out` accumulator
explicit: run each runner in declaration order; on error stop and drop
the accumulated list (`return nil, err`); a non-empty returned service
name is appended only if not already present. -/
def runRunnersAux {σ : Type} : List (Runner σ) → List String → σ →
    Except String (List String) × σ
  | [], out, s => (.ok out, s)
  | r :: rest, out, s =>
    match r s with
    | (.error e, s') => (.error e, s')
    | (.ok service, s') => runRunnersAux rest (addIfAbsent out service) s'

/-- Function `runRunners` from `config.go`. -/
def runRunners {σ : Type} (runners : List (Runner σ)) (s : σ) :
    Except String (List String) × σ :=
  runRunnersAux runners [] s

/-- Reference semantics for the same loop without any deduplication:
the raw sequence of notify targets returned by the runners, stopping at
the first error. -/
def runNames {σ : Type} : List (Runner σ) → σ → Except String (List String) × σ
  | [], s => (.ok [], s)
  | r :: rest, s =>
    match r s with
    | (.error e, s') => (.error e, s')
    | (.ok n, s') =>
      match runNames rest s' with
      | (.error e, s'') => (.error e, s'')
      | (.ok ns, s'') => (.ok (n :: ns), s'')

/-- First-occurrence deduplication, stated the way the spec describes
it: keep the first occurrence of each name and erase every later one. -/
def dedupFirst : List String → List String
  | [] => []
  | n :: ns => n :: dedupFirst (ns.filter (fun m => m ≠ n))
termination_by l => l.length
decreasing_by
  simp only [List.length_cons]
  exact Nat.lt_succ_of_le (List.length_filter_le _ _)

/-- A notifier capability: `Restart` as a state transformer. -/
def Notifier (σ : Type) := String → σ → Option String × σ

/-- Function `notifyServices` from `service.go`: restart each listed service in
order via the notifier, stopping at the first failure. -/
def notifyServices {σ : Type} (restart : Notifier σ) :
    List String → σ → Option String × σ
  | [], s => (none, s)
  | svc :: rest, s =>
    match restart svc s with
    | (some e, s') => (some e, s')
    | (none, s') => notifyServices restart rest s'

/-- The core of `run` (`config.go`), after the configuration has been
loaded: run the runners; on error return it without entering the
restart phase; otherwise hand the collected list to `notifyServices`. -/
def runConfig {σ : Type} (runners : List (Runner σ)) (restart : Notifier σ)
    (s : σ) : Option String × σ :=
  match runRunners runners s with
  | (.error e, s') => (some e, s')
  | (.ok services, s') => notifyServices restart services s'

/-- A notifier that records every `Restart` call in order and fails
according to a script; used to observe the call sequence of
`notifyServices`. -/
def scriptNotifier (errOn : String → Option String) : Notifier (List String) :=
  fun svc log => (errOn svc, log ++ [svc])

/-- The services `notifyServices` is supposed to attempt: every entry up
to and including the first one whose restart fails, dupes included. -/
def attempted (errOn : String → Option String) : List String → List String
  | [] => []
  | svc :: rest =>
    match errOn svc with
    | some _ => [svc]
    | none => svc :: attempted errOn rest

/-- The error of the first failing restart, if any. -/
def firstRestartErr (errOn : String → Option String) : List String → Option String
  | [] => none
  | svc :: rest =>
    match errOn svc with
    | some e => some e
    | none => firstRestartErr errOn rest

/-- The externally visible events of one run: which reconcilers executed
(by label, in order) and which services were restarted. -/
structure RunTrace where
  reconciled : List String
  restarted : List String
deriving DecidableEq, Repr

/-- A reconciler that succeeds, notifying `notify`, and records its own
execution. -/
def mkOkRunner (id notify : String) : Runner RunTrace :=
  fun t => (.ok notify, { t with reconciled := t.reconciled ++ [id] })

/-- A reconciler that fails with `err` after recording its execution. -/
def mkErrRunner (id err : String) : Runner RunTrace :=
  fun t => (.error err, { t with reconciled := t.reconciled ++ [id] })

/-- A notifier that records every restart and never fails. -/
def traceNotifier : Notifier RunTrace :=
  fun svc t => (none, { t with restarted := t.restarted ++ [svc] })

/-- Struct `notifyResource` (`config.go`): the optional service to restart. -/
structure notifyResource where
  Service : String
deriving DecidableEq, Repr

/-- Struct `fileResource` (`file.go`). -/
structure fileResource where
  Path : String
  Contents : Option String
  Owner : Option String
  Group : Option String
  Mode : Option FileMode
  State : Option String
  Notify : notifyResource
deriving DecidableEq, Repr

/-- Struct `directoryResource` (`directory.go`). -/
structure directoryResource where
  Path : String
  Owner : Option String
  Group : Option String
  Mode : Option FileMode
  Recursive : Bool
  Notify : notifyResource
deriving DecidableEq, Repr

/-- Struct `packageResource` (`package.go`). -/
structure packageResource where
  Name : String
  State : String
  Notify : notifyResource
deriving DecidableEq, Repr

/-- Struct `serviceResource` (`service.go`). -/
structure serviceResource where
  Name : String
  State : String
  Notify : notifyResource
deriving DecidableEq, Repr

/-- The tagged union behind the `resource` struct of `config.go`, as
established by `resource.UnmarshalJSON`: exactly one variant populated,
matching the type tag.  `UnmarshalJSON` itself accepts all four tags
(file, directory, service, package). -/
inductive resourceDecl
  | file (f : fileResource)
  | directory (d : directoryResource)
  | pkg (p : packageResource)
  | service (s : serviceResource)
deriving DecidableEq, Repr

/-- An `omitempty,oneof=...` string field: absent or empty passes;
otherwise the value must be in the allowed list. -/
def oneofOpt (s : Option String) (allowed : List String) : Bool :=
  match s with
  | none => true
  | some v => v = "" || v ∈ allowed

/-- The per-resource validation switch of `configFromBytes`
(`config.go`): file, directory and service structs are validated against
their tags; there is no `package` case, so package fields are not
checked there. -/
def validateResourceFields : resourceDecl → Except String Unit
  | .file f =>
    if f.Path = "" then .error "file path is required"
    else if oneofOpt f.State ["present", "absent"] then .ok ()
    else .error "file state failed oneof validation"
  | .directory d =>
    if d.Path = "" then .error "directory path is required" else .ok ()
  | .service s =>
    if s.Name = "" then .error "service name is required"
    else if s.State = "" then .error "service state is required"
    else if s.State ∈ ["running", "stopped"] then .ok ()
    else .error "service state failed oneof validation"
  | .pkg _ => .ok ()

/-- The per-resource validation loop of `configFromBytes`. -/
def validateFieldsList : List resourceDecl → Except String Unit
  | [] => .ok ()
  | r :: rest =>
    match validateResourceFields r with
    | .error e => .error e
    | .ok _ => validateFieldsList rest

/-- Function `configFromBytes` (`config.go`) on an already-decoded
document (the YAML byte-level decoding is outside the model;
`UnmarshalJSON`'s accept set is the four-variant `resourceDecl`,
unknown type tags having been rejected during decoding).  The
`v.Struct(&cfg)` pass validates only `config`'s own fields: the
`Resources []resource` field carries no validate tag, and validator
v10 does not descend into slice elements without a `dive` tag, so the
`oneof=file directory service` tag on `resource.Type` is never
evaluated and that pass checks nothing.  What remains is the manual
per-resource loop. -/
def configFromBytes (doc : List resourceDecl) : Except String (List resourceDecl) :=
  match validateFieldsList doc with
  | .error e => .error e
  | .ok _ => .ok doc

/-- Spec-side definition of a well-formed resource, written from the
spec's words (external-interfaces section) for the C7 comparison: a
resource carries its variant's required fields — file and directory
need a path (a file state, when given, is present or absent), a
package needs a name and a state installed or absent, a service a name
and a state running or stopped. -/
def wellFormedResource : resourceDecl → Bool
  | .file f => f.Path != "" &&
      (f.State == none || f.State == some "present" || f.State == some "absent")
  | .directory d => d.Path != ""
  | .pkg p => p.Name != "" && (p.State == "installed" || p.State == "absent")
  | .service s => s.Name != "" && (s.State == "running" || s.State == "stopped")

/-- An external `systemctl` invocation. -/
inductive Cmd
  | start (svc : String)
  | restartCmd (svc : String)
  | unmask (svc : String)
deriving DecidableEq, Repr

/-- The external world of shelled-out commands: the trace of issued
commands, and a script of `(combined output, success)` responses
consumed in order (an exhausted script answers success with empty
output). -/
structure CmdWorld where
  issued : List Cmd
  script : List (String × Bool)
deriving DecidableEq, Repr

/-- Issue one external command and consume its scripted response. -/
def execCmd (c : Cmd) (w : CmdWorld) : (String × Bool) × CmdWorld :=
  match w.script with
  | [] => (("", true), { w with issued := w.issued ++ [c] })
  | r :: rest => (r, { issued := w.issued ++ [c], script := rest })

/-- Substring test on character lists (`strings.Contains`). -/
def hasSubList (needle : List Char) : List Char → Bool
  | [] => needle.isEmpty
  | c :: rest => needle.isPrefixOf (c :: rest) || hasSubList needle rest

/-- Model of `strings.Contains hay sub`. -/
def strContains (hay sub : String) : Bool := hasSubList sub.data hay.data

/-- Method `systemdServiceManager.unmaskIfNeeded` (`service.go`): if the failure
output does not contain "masked", return the `originalErr` argument
unchanged; otherwise shell `systemctl unmask` and report its outcome. -/
def unmaskIfNeeded (service output : String) (originalErr : Option String)
    (w : CmdWorld) : Option String × CmdWorld :=
  if ¬ strContains output "masked" then (originalErr, w)
  else
    let r := execCmd (.unmask service) w
    if r.1.2 then (none, r.2)
    else (some ("failed to unmask service " ++ service ++ ": (output: " ++
      r.1.1 ++ ")"), r.2)

/-- Method `systemdServiceManager.Start` (`service.go`): run `systemctl start`;
on failure call `unmaskIfNeeded` with `originalErr = nil` and, whenever
it returns nil, retry the start once; otherwise surface an error with
the original combined output. -/
def systemdStart (service : String) (w : CmdWorld) : Option String × CmdWorld :=
  let r := execCmd (.start service) w
  if r.1.2 then (none, r.2)
  else
    match unmaskIfNeeded service r.1.1 none r.2 with
    | (none, w2) =>
      let r2 := execCmd (.start service) w2
      if r2.1.2 then (none, r2.2)
      else (some ("failed to start service " ++ service ++
        " after unmasking: (output: " ++ r2.1.1 ++ ")"), r2.2)
    | (some _, w2) =>
      (some ("failed to start service " ++ service ++ ": (output: " ++
        r.1.1 ++ ")"), w2)

/-- Method `systemdServiceManager.Restart` (`service.go`): same structure as
`Start` with `systemctl restart`. -/
def systemdRestart (service : String) (w : CmdWorld) : Option String × CmdWorld :=
  let r := execCmd (.restartCmd service) w
  if r.1.2 then (none, r.2)
  else
    match unmaskIfNeeded service r.1.1 none r.2 with
    | (none, w2) =>
      let r2 := execCmd (.restartCmd service) w2
      if r2.1.2 then (none, r2.2)
      else (some ("failed to restart service " ++ service ++
        " after unmasking: (output: " ++ r2.1.1 ++ ")"), r2.2)
    | (some _, w2) =>
      (some ("failed to restart service " ++ service ++ ": (output: " ++
        r.1.1 ++ ")"), w2)

/-- An entry after `os.Chown(path, uid, gid)`: `-1` leaves the
respective id unchanged. -/
def chownEntry (e : Entry) (uid gid : Int) : Entry :=
  Entry.mk (if uid = -1 then e.uid else uid.toNat)
    (if gid = -1 then e.gid else gid.toNat) e.mode e.isDir e.contents

/-- Model of `os.Chown` on the state (no-op on a missing path). -/
def chownOp (st : SysState) (p : String) (uid gid : Int) : SysState :=
  match lookupFs st.fs p with
  | some e => { st with fs := setFs st.fs p (chownEntry e uid gid) }
  | none => st

/-- Model of `os.Chmod` on the state: records `syscallMode(m)`. -/
def chmodOp (st : SysState) (p : String) (m : FileMode) : SysState :=
  match lookupFs st.fs p with
  | some e => { st with fs := setFs st.fs p { e with mode := applyChmod m } }
  | none => st

/-- Model of `os.WriteFile`: truncate an existing file keeping its attributes, or
create a fresh one with the given mode, owned by the process. -/
def writeFileOp (st : SysState) (p : String) (contents : String) (m : FileMode)
    (uid gid : Nat) : SysState :=
  match lookupFs st.fs p with
  | some e => { st with fs := setFs st.fs p { e with contents := contents } }
  | none => { st with fs := setFs st.fs p ⟨uid, gid, applyChmod m, false, contents⟩ }

/-- Model of `os.Remove`. -/
def removeOp (st : SysState) (p : String) : SysState :=
  { st with fs := eraseFs st.fs p }

/-- Model of `os.Mkdir` / `os.MkdirAll` on a missing path (the two differ only in
parent handling, which the flat filesystem abstracts away). -/
def mkdirOp (st : SysState) (p : String) (m : FileMode) (uid gid : Nat) : SysState :=
  { st with fs := setFs st.fs p ⟨uid, gid, applyChmod m, true, ""⟩ }

/-- Model of `os.Rename src dst`. -/
def renameOp (st : SysState) (src dst : String) : SysState :=
  match lookupFs st.fs src with
  | some e => { st with fs := setFs (eraseFs st.fs src) dst e }
  | none => st

/-- Missing-path branch, task 1: create the file with the desired
contents (or empty) and the desired mode (or the default); always
reports changed. -/
def fileCreateTask (env : Env) (f : fileResource) (mode : FileMode) :
    ConvTask SysState :=
  fun st =>
    let contents := match f.Contents with | some c => c | none => ""
    (true, none, writeFileOp st f.Path contents mode env.procUid env.procGid)

/-- Missing-path branch, task 2: chown the owner if one was specified
(`userID == -1` skips); always reports changed when it runs. -/
def createChownUserTask (path : String) (userID : Int) : ConvTask SysState :=
  fun st =>
    if userID = -1 then (false, none, st)
    else (true, none, chownOp st path userID (-1))

/-- Missing-path branch, task 3: same for the group. -/
def createChownGroupTask (path : String) (groupID : Int) : ConvTask SysState :=
  fun st =>
    if groupID = -1 then (false, none, st)
    else (true, none, chownOp st path (-1) groupID)

/-- Existing-path owner task: compare the resolved desired uid to the
uid observed by the initial stat; apply `chown` only on mismatch. -/
def ownerTask (path : String) (userID : Int) (observedUid : Nat) :
    ConvTask SysState :=
  fun st =>
    if userID = -1 ∨ (observedUid : Int) = userID then (false, none, st)
    else (true, none, chownOp st path userID (-1))

/-- Existing-path group task. -/
def groupTask (path : String) (groupID : Int) (observedGid : Nat) :
    ConvTask SysState :=
  fun st =>
    if groupID = -1 ∨ (observedGid : Int) = groupID then (false, none, st)
    else (true, none, chownOp st path (-1) groupID)

/-- Existing-path mode task, shared logic of `file.go` and
`directory.go`: skip when no mode is desired or when the observed
permission bits equal the desired ones (`fileInfo.Mode().Perm() ==
f.Mode.Perm()` — only the nine permission bits are compared); on
mismatch chmod with the full desired mode value. -/
def modeTask (path : String) (desired : Option FileMode) (observed : FileMode) :
    ConvTask SysState :=
  fun st =>
    match desired with
    | none => (false, none, st)
    | some m =>
      if observed.Perm = m.Perm then (false, none, st)
      else (true, none, chmodOp st path m)

/-- Function `copyPermissions` (`config.go`): re-stat the source, chown the
destination to the source's uid/gid, then chmod the destination with
`os.FileMode(stat.Mode)`.  Under Go's conversion rules only the nine
permission bits of the raw mode survive that double conversion (the raw
setuid/setgid/sticky bits do not land on the `FileMode` flag positions
`syscallMode` reads), so the destination gets the source's permission
bits and cleared special bits. -/
def copyPermissions (st : SysState) (src dst : String) : Option String × SysState :=
  match lookupFs st.fs src with
  | none => (some ("failed to stat " ++ src), st)
  | some e =>
    let st1 := chownOp st dst (Int.ofNat e.uid) (Int.ofNat e.gid)
    (none, chmodOp st1 dst (FileMode.ofPerm e.mode.Perm))

/-- Existing-path contents task (`file.go`): read the current file; if
it equals the desired contents, no-op; otherwise write the desired
contents to a fresh temp file in the target's directory
(`os.CreateTemp` is exclusive: an occupied temp name fails), copy the
original's ownership and mode onto it, and atomically rename it over
the target.  The deferred `os.Remove(file.Name())` cleans the temp file
on the error paths and is a no-op after a successful rename. -/
def contentsTask (env : Env) (f : fileResource) : ConvTask SysState :=
  fun st =>
    match f.Contents with
    | none => (false, none, st)
    | some desired =>
      match lookupFs st.fs f.Path with
      | none => (false, some ("failed to read " ++ f.Path), st)
      | some cur =>
        if cur.contents = desired then (false, none, st)
        else if (lookupFs st.fs env.tmpName).isSome then
          (false, some ("failed to create temp file for " ++ f.Path), st)
        else
          let st1 := writeFileOp st env.tmpName desired (FileMode.ofPerm 0o600)
            env.procUid env.procGid
          match copyPermissions st1 f.Path env.tmpName with
          | (some e, st2) => (false, some e, removeOp st2 env.tmpName)
          | (none, st2) => (true, none, renameOp st2 env.tmpName f.Path)

/-- Absent-state task: remove the path; always reports changed. -/
def removeTask (path : String) : ConvTask SysState :=
  fun st => (true, none, removeOp st path)

/-- The common tail of every reconciler's `Run`: an error from
`runTasks` is surfaced with an empty notify value; otherwise the notify
target is returned exactly when some task reported a change. -/
def finishRun (notify : String) :
    Bool × Option String × SysState → Except String String × SysState
  | (_, some e, st) => (.error e, st)
  | (changed, none, st) => (.ok (if changed then notify else ""), st)

/-- Method `fileResource.Run` (`file.go`): resolve owner/group, stat the path,
and dispatch on path existence × desired state, running the resulting
task list through `runTasks`. -/
def fileResource.Run (env : Env) (f : fileResource) : Runner SysState :=
  fun st =>
    match getUserAndGroup env f.Owner f.Group with
    | .error e => (.error e, st)
    | .ok (userID, groupID) =>
      match lookupFs st.fs f.Path with
      | none =>
        if f.State = some "absent" then (.ok "", st)
        else
          let mode := match f.Mode with | some m => m | none => defaultFileMode
          finishRun f.Notify.Service
            (runTasks [fileCreateTask env f mode,
              createChownUserTask f.Path userID,
              createChownGroupTask f.Path groupID] st)
      | some fileInfo =>
        if fileInfo.isDir then (.error (f.Path ++ " is a directory"), st)
        else if f.State = some "absent" then
          finishRun f.Notify.Service (runTasks [removeTask f.Path] st)
        else
          finishRun f.Notify.Service
            (runTasks [ownerTask f.Path userID fileInfo.uid,
              groupTask f.Path groupID fileInfo.gid,
              modeTask f.Path f.Mode fileInfo.mode,
              contentsTask env f] st)

/-- Missing-path branch of the directory reconciler: create the
directory (recursively or not; the flat model treats both alike) with
the desired or default mode; always reports changed. -/
def dirCreateTask (env : Env) (d : directoryResource) (mode : FileMode) :
    ConvTask SysState :=
  fun st => (true, none, mkdirOp st d.Path mode env.procUid env.procGid)

/-- Method `directoryResource.Run` (`directory.go`): like the file reconciler
but with no absent state and no contents step; an existing non-directory
is an error. -/
def directoryResource.Run (env : Env) (d : directoryResource) : Runner SysState :=
  fun st =>
    match getUserAndGroup env d.Owner d.Group with
    | .error e => (.error e, st)
    | .ok (userID, groupID) =>
      match lookupFs st.fs d.Path with
      | none =>
        let mode := match d.Mode with | some m => m | none => defaultDirMode
        finishRun d.Notify.Service
          (runTasks [dirCreateTask env d mode,
            createChownUserTask d.Path userID,
            createChownGroupTask d.Path groupID] st)
      | some dirInfo =>
        if ¬ dirInfo.isDir then (.error (d.Path ++ " is not a directory"), st)
        else
          finishRun d.Notify.Service
            (runTasks [ownerTask d.Path userID dirInfo.uid,
              groupTask d.Path groupID dirInfo.gid,
              modeTask d.Path d.Mode dirInfo.mode] st)

/-- The single task of `packageResource.Run` (`package.go`), against the
in-memory package-manager capability: query installed state, then
install/uninstall only on mismatch; an out-of-domain state is an
error. -/
def packageTask (p : packageResource) : ConvTask SysState :=
  fun st =>
    let isInstalled := lookupBool st.pkgs p.Name
    if p.State = "installed" then
      if isInstalled then (false, none, st)
      else (true, none, { st with pkgs := setBool st.pkgs p.Name true })
    else if p.State = "absent" then
      if isInstalled = false then (false, none, st)
      else (true, none, { st with pkgs := setBool st.pkgs p.Name false })
    else (false, some ("unexpected package state " ++ p.State), st)

/-- Method `packageResource.Run` (`package.go`). -/
def packageResource.Run (p : packageResource) : Runner SysState :=
  fun st => finishRun p.Notify.Service (runTasks [packageTask p] st)

/-- The single task of `serviceResource.Run` (`service.go`), against the
in-memory service-manager capability. -/
def serviceTask (s : serviceResource) : ConvTask SysState :=
  fun st =>
    let isRunning := lookupBool st.svcs s.Name
    if s.State = "running" then
      if isRunning then (false, none, st)
      else (true, none, { st with svcs := setBool st.svcs s.Name true })
    else if s.State = "stopped" then
      if isRunning = false then (false, none, st)
      else (true, none, { st with svcs := setBool st.svcs s.Name false })
    else (false, some ("unexpected service state " ++ s.State), st)

/-- Method `serviceResource.Run` (`service.go`). -/
def serviceResource.Run (s : serviceResource) : Runner SysState :=
  fun st => finishRun s.Notify.Service (runTasks [serviceTask s] st)

/-- The `toRunner` dispatch of `config.go`. -/
def resourceDecl.Run (env : Env) : resourceDecl → Runner SysState
  | .file f => fileResource.Run env f
  | .directory d => directoryResource.Run env d
  | .pkg p => packageResource.Run p
  | .service s => serviceResource.Run s

/-- The entry `os.CreateTemp` plus the contents write produce: a
process-owned 0600 file holding the desired contents. -/
def tempEntry (env : Env) (c : String) : Entry :=
  ⟨env.procUid, env.procGid, applyChmod (FileMode.ofPerm 0o600), false, c⟩

/-- The entry that ends up at the target after a successful content
replacement: the original's uid/gid/permission bits, the new
contents. -/
def replacedEntry (cur : Entry) (c : String) : Entry :=
  ⟨cur.uid, cur.gid, FileMode.ofPerm cur.mode.Perm, false, c⟩

/-- The entry `os.WriteFile` creates for a missing file. -/
def createdFileEntry (env : Env) (f : fileResource) (mode : FileMode) : Entry :=
  Entry.mk env.procUid env.procGid (applyChmod mode) false
    (match f.Contents with | some c => c | none => "")

/-- The entry `os.Mkdir`/`os.MkdirAll` creates. -/
def createdDirEntry (env : Env) (mode : FileMode) : Entry :=
  Entry.mk env.procUid env.procGid (applyChmod mode) true ""

/-- A declaration with every optional field populated: contents, owner,
group, mode, a validated state, and a non-empty notify target. -/
def fullySpecified : resourceDecl → Bool
  | .file f => f.Contents.isSome && f.Owner.isSome && f.Group.isSome &&
      f.Mode.isSome &&
      (f.State == some "present" || f.State == some "absent") &&
      f.Notify.Service != ""
  | .directory d => d.Owner.isSome && d.Group.isSome && d.Mode.isSome &&
      d.Notify.Service != ""
  | .pkg p => (p.State == "installed" || p.State == "absent") &&
      p.Notify.Service != ""
  | .service s => (s.State == "running" || s.State == "stopped") &&
      s.Notify.Service != ""

/-! ## Theorems -/

theorem runTasksAux_mkStep (steps : List StepSpec) (b : Bool) (log : List Nat) :
    runTasksAux (steps.map mkStep) b log =
      (b || orChanged (executedSteps steps), firstErr steps,
        log ++ (executedSteps steps).map (fun s => s.1)) := by
  induction steps generalizing b log with
  | nil => simp [runTasksAux, executedSteps, orChanged, firstErr]
  | cons s rest ih =>
    obtain ⟨id, c, err⟩ := s
    cases err with
    | none =>
      simp only [List.map_cons, runTasksAux, mkStep, executedSteps, orChanged, firstErr, ih]
      cases c <;> cases b <;> simp [orChanged]
    | some e =>
      simp only [List.map_cons, runTasksAux, mkStep, executedSteps, orChanged, firstErr]
      cases c <;> cases b <;> simp [orChanged]

/-- C2 — Task-executor contract (`runTasks`, `config.go`): scripted
steps are executed in order, each at most once; the returned changed
flag is the OR of the changed flags of the executed steps (the failing
step included, since `runTasks` folds `changed` before checking the
error); at the first step returning an error the executor stops, no
later step runs, and that error is returned.  The execution trace equals
exactly the labels of the steps up to and including the first failing
one, in sequence order. -/
theorem runTasks_contract (steps : List StepSpec) :
    runTasks (steps.map mkStep) [] =
      (orChanged (executedSteps steps), firstErr steps,
        (executedSteps steps).map (fun s => s.1)) := by
  simpa [runTasks] using runTasksAux_mkStep steps false []

lemma foldl_addIfAbsent_eq (ns : List String) (out : List String) :
    ns.foldl addIfAbsent out =
      out ++ dedupFirst (ns.filter (fun m => m ∉ out ∧ m ≠ "")) := by
  induction ns generalizing out with
  | nil => simp [dedupFirst]
  | cons n ns ih =>
    simp only [List.foldl_cons, List.filter_cons, ih]
    by_cases h1 : n = ""
    · simp [addIfAbsent, h1]
    · by_cases h2 : n ∈ out
      · simp [addIfAbsent, h1, h2]
      · have hfil : ns.filter (fun m => m ∉ out ++ [n] ∧ m ≠ "") =
            (ns.filter (fun m => m ∉ out ∧ m ≠ "")).filter (fun m => m ≠ n) := by
          rw [List.filter_filter]
          apply List.filter_congr
          intro m _
          by_cases hm1 : m ∈ out <;> by_cases hm2 : m = n <;> by_cases hm3 : m = "" <;>
            simp [hm1, hm2, hm3, List.mem_append]
        have haia : addIfAbsent out n = out ++ [n] := by
          simp [addIfAbsent, h1, h2]
        have hkeep : (decide (n ∉ out ∧ n ≠ "")) = true := by simp [h1, h2]
        rw [haia, hfil, hkeep, if_pos rfl, dedupFirst]
        simp

theorem runRunnersAux_eq {σ : Type} (rs : List (Runner σ)) (out : List String) (s : σ) :
    runRunnersAux rs out s =
      match runNames rs s with
      | (.error e, s') => (.error e, s')
      | (.ok ns, s') => (.ok (ns.foldl addIfAbsent out), s') := by
  induction rs generalizing out s with
  | nil => simp [runRunnersAux, runNames]
  | cons r rest ih =>
    simp only [runRunnersAux, runNames]
    obtain ⟨res, s'⟩ := r s
    cases res with
    | error e => simp
    | ok n =>
      simp only [ih]
      obtain ⟨res2, s''⟩ := runNames rest s'
      cases res2 with
      | error e => simp
      | ok ns => simp

lemma mem_dedupFirst {m : String} : ∀ {l : List String}, m ∈ dedupFirst l → m ∈ l := by
  intro l
  induction l using dedupFirst.induct with
  | case1 => simp [dedupFirst]
  | case2 n ns ih =>
    rw [dedupFirst]
    intro h
    rcases List.mem_cons.mp h with h | h
    · exact h ▸ List.mem_cons_self _ _
    · exact List.mem_cons_of_mem _ (List.mem_of_mem_filter (ih h))

lemma nodup_dedupFirst : ∀ (l : List String), (dedupFirst l).Nodup := by
  intro l
  induction l using dedupFirst.induct with
  | case1 => simp [dedupFirst]
  | case2 n ns ih =>
    rw [dedupFirst]
    refine List.nodup_cons.mpr ⟨fun h => ?_, ih⟩
    have := List.of_mem_filter (mem_dedupFirst h)
    simp at this

/-- C4 — Notify aggregation with first-occurrence dedup (`runRunners`,
`config.go`): whenever every runner succeeds, the returned list is
exactly the non-empty notify targets of the runners, deduplicated by
keeping the first occurrence of each name (the order of first
appearance), with no duplicates; and in the concrete three-runner run
where two changed resources notify "svcA" and one notifies "svcB", the
result is exactly `["svcA", "svcB"]`.  (The equation also covers the
failing case: a runner error is propagated with the list dropped.) -/
theorem runRunners_notify_aggregation :
    (∀ (σ : Type) (rs : List (Runner σ)) (s : σ),
        runRunners rs s =
          match runNames rs s with
          | (.error e, s') => (.error e, s')
          | (.ok ns, s') => (.ok (dedupFirst (ns.filter (fun n => n ≠ ""))), s'))
    ∧ (∀ ns : List String, (dedupFirst ns).Nodup)
    ∧ runRunners [fun s => (.ok "svcA", s), fun s => (.ok "svcB", s),
        fun s => (.ok "svcA", s)] () = (.ok ["svcA", "svcB"], ()) := by
  refine ⟨fun σ rs s => ?_, nodup_dedupFirst, by rfl⟩
  rw [runRunners, runRunnersAux_eq]
  obtain ⟨res, s'⟩ := runNames rs s
  cases res with
  | error e => rfl
  | ok ns =>
    dsimp only
    rw [foldl_addIfAbsent_eq]
    have hf : List.filter (fun m => decide (m ∉ ([] : List String) ∧ m ≠ "")) ns =
        List.filter (fun n => decide (n ≠ "")) ns :=
      List.filter_congr (fun m _ => by simp)
    rw [hf]
    simp

lemma notifyServices_script (errOn : String → Option String)
    (services : List String) (log : List String) :
    notifyServices (scriptNotifier errOn) services log =
      (firstRestartErr errOn services, log ++ attempted errOn services) := by
  induction services generalizing log with
  | nil => simp [notifyServices, attempted, firstRestartErr]
  | cons svc rest ih =>
    cases h : errOn svc <;>
      simp [notifyServices, scriptNotifier, attempted, firstRestartErr, h, ih]

lemma attempted_none (services : List String) :
    attempted (fun _ => none) services = services := by
  induction services with
  | nil => rfl
  | cons svc rest ih => simp [attempted, ih]

/-- C5 — Restart-protocol order and short-circuit (`notifyServices`,
`service.go`): the notifier's `Restart` is invoked once per list entry
in list order up to and including the first failing entry, whose error
is returned; with no failures every entry is restarted exactly once in
order, duplicates included (no deduplication of its own); concretely,
with a list `["mysql", "nginx", "redis"]` whose "nginx" restart fails,
only `["mysql", "nginx"]` are attempted and "redis" is left
unrestarted. -/
theorem notifyServices_protocol :
    (∀ (errOn : String → Option String) (services : List String),
        notifyServices (scriptNotifier errOn) services [] =
          (firstRestartErr errOn services, attempted errOn services))
    ∧ (∀ services : List String,
        notifyServices (scriptNotifier (fun _ => none)) services [] = (none, services))
    ∧ notifyServices
        (scriptNotifier (fun s => if s = "nginx" then some "restart failed" else none))
        ["mysql", "nginx", "redis"] [] = (some "restart failed", ["mysql", "nginx"]) := by
  refine ⟨fun errOn services => by simp [notifyServices_script], fun services => ?_, by rfl⟩
  simp [notifyServices_script, attempted_none, firstRestartErr]
  induction services with
  | nil => rfl
  | cons svc rest ih => simp [firstRestartErr, ih]

lemma runRunnersAux_short_circuit (pre : List (String × String))
    (badId errMsg : String) (rest : List (Runner RunTrace))
    (out : List String) (t : RunTrace) :
    runRunnersAux (pre.map (fun p => mkOkRunner p.1 p.2) ++
        mkErrRunner badId errMsg :: rest) out t =
      (.error errMsg,
        { t with reconciled := t.reconciled ++ (pre.map Prod.fst ++ [badId]) }) := by
  induction pre generalizing out t with
  | nil =>
    obtain ⟨rec, res⟩ := t
    simp [runRunnersAux, mkErrRunner]
  | cons p ps ih =>
    obtain ⟨rec, res⟩ := t
    simp [runRunnersAux, mkOkRunner, ih]

/-- C6 — Run short-circuit (`run`/`runRunners`, `config.go`): if the
reconciler of declaration `i` fails, the reconcilers executed are
exactly the ones up to and including `i` (none after `i` ever runs),
the restart phase is never entered — no service is restarted even
though every earlier declaration succeeded and may have notified — and
the run returns that error. -/
theorem run_short_circuit (pre : List (String × String)) (badId errMsg : String)
    (post : List (String × String)) :
    runConfig (pre.map (fun p => mkOkRunner p.1 p.2) ++
        mkErrRunner badId errMsg :: post.map (fun p => mkOkRunner p.1 p.2))
      traceNotifier ⟨[], []⟩ =
      (some errMsg, ⟨pre.map Prod.fst ++ [badId], []⟩) := by
  rw [runConfig, runRunners, runRunnersAux_short_circuit]
  simp

lemma validateFieldsList_ok (doc : List resourceDecl)
    (h : ∀ r ∈ doc, wellFormedResource r = true) :
    validateFieldsList doc = .ok () := by
  induction doc with
  | nil => rfl
  | cons r rest ih =>
    have hr := h r (List.mem_cons_self r rest)
    have hok : validateResourceFields r = .ok () := by
      cases r with
      | file f =>
        simp only [wellFormedResource, Bool.and_eq_true, Bool.or_eq_true,
          bne_iff_ne, ne_eq, beq_iff_eq] at hr
        obtain ⟨hp, hs⟩ := hr
        rcases hs with (hs | hs) | hs <;> simp [validateResourceFields, oneofOpt, hp, hs]
      | directory d =>
        simp only [wellFormedResource, bne_iff_ne, ne_eq] at hr
        simp [validateResourceFields, hr]
      | pkg p => rfl
      | service s =>
        simp only [wellFormedResource, Bool.and_eq_true, Bool.or_eq_true,
          bne_iff_ne, ne_eq, beq_iff_eq] at hr
        obtain ⟨hn, hs⟩ := hr
        rcases hs with hs | hs <;> simp [validateResourceFields, hn, hs]
    have ih2 := ih (fun x hx => h x (List.mem_cons_of_mem r hx))
    simp [validateFieldsList, hok, ih2]

/-- C7 — all four type discriminators are accepted (`configFromBytes`,
`config.go`): the `Resources []resource` field carries no validate tag
and validator v10 does not validate slice elements without `dive`, so
the `oneof=file directory service` tag on `resource.Type` is never
evaluated; `UnmarshalJSON` accepts all four type tags, and the
per-resource loop's missing `package` case leaves package fields
unchecked rather than rejected.  Hence every document whose resources
carry one of the four discriminators with that variant's required
fields passes validation — in particular the README's own package
document (name "apache2", state "installed") is accepted. -/
theorem configFromBytes_accepts_four_discriminators :
    (∀ doc : List resourceDecl, (∀ r ∈ doc, wellFormedResource r = true) →
        configFromBytes doc = .ok doc)
    ∧ configFromBytes [resourceDecl.pkg ⟨"apache2", "installed", ⟨""⟩⟩] =
        .ok [resourceDecl.pkg ⟨"apache2", "installed", ⟨""⟩⟩] := by
  refine ⟨fun doc h => ?_, by rfl⟩
  rw [configFromBytes, validateFieldsList_ok doc h]

theorem configFromBytes_accepts_four_discriminators_witness :
    configFromBytes
      [resourceDecl.file ⟨"/etc/nginx/nginx.conf", some "hello", none, none,
          some (FileMode.ofPerm 0o644), some "present", ⟨"nginx"⟩⟩,
        resourceDecl.directory ⟨"/var/www", none, none,
          some (FileMode.ofPerm 0o755), true, ⟨""⟩⟩,
        resourceDecl.pkg ⟨"apache2", "installed", ⟨""⟩⟩,
        resourceDecl.service ⟨"nginx", "running", ⟨""⟩⟩] =
      .ok [resourceDecl.file ⟨"/etc/nginx/nginx.conf", some "hello", none, none,
          some (FileMode.ofPerm 0o644), some "present", ⟨"nginx"⟩⟩,
        resourceDecl.directory ⟨"/var/www", none, none,
          some (FileMode.ofPerm 0o755), true, ⟨""⟩⟩,
        resourceDecl.pkg ⟨"apache2", "installed", ⟨""⟩⟩,
        resourceDecl.service ⟨"nginx", "running", ⟨""⟩⟩] :=
  configFromBytes_accepts_four_discriminators.1 _ (by decide)

/-- C8 — masked-service retry conditionality (code bug): `Start` passes
`originalErr = nil` into `unmaskIfNeeded`, which returns it unchanged
when the output lacks the "masked" indicator; the nil comparison in
`Start` then takes the "was masked, retry" branch.  Concretely, a start
failing with output "connection refused" (no masked indicator) is
retried without any unmask, and a successful retry swallows the
original failure — the claim (and the code's own comments) say such a
failure surfaces immediately as an error with no retry.  The second
conjunct shows the genuinely masked path (unmask, then one retry), and
the third shows `Restart` misbehaves the same way. -/
theorem systemdStart_retries_without_masked_indicator :
    systemdStart "nginx" ⟨[], [("connection refused", false), ("", true)]⟩ =
      (none, ⟨[.start "nginx", .start "nginx"], []⟩)
    ∧ systemdStart "nginx" ⟨[], [("unit nginx.service is masked", false),
        ("", true), ("", true)]⟩ =
      (none, ⟨[.start "nginx", .unmask "nginx", .start "nginx"], []⟩)
    ∧ systemdRestart "nginx" ⟨[], [("connection refused", false), ("", true)]⟩ =
      (none, ⟨[.restartCmd "nginx", .restartCmd "nginx"], []⟩) := by
  refine ⟨by rfl, by rfl, by rfl⟩

lemma lookupFs_setFs_self (fs : Fs) (p : String) (e : Entry) :
    lookupFs (setFs fs p e) p = some e := by
  induction fs with
  | nil => simp [setFs, lookupFs]
  | cons kv rest ih =>
    obtain ⟨k, v⟩ := kv
    by_cases h : k = p <;> simp [setFs, lookupFs, h, ih]

lemma lookupFs_setFs_ne (fs : Fs) (p q : String) (e : Entry) (h : q ≠ p) :
    lookupFs (setFs fs p e) q = lookupFs fs q := by
  induction fs with
  | nil => simp [setFs, lookupFs, Ne.symm h]
  | cons kv rest ih =>
    obtain ⟨k, v⟩ := kv
    by_cases hk : k = p
    · subst hk
      simp [setFs, lookupFs, Ne.symm h]
    · simp [setFs, lookupFs, hk, ih]

lemma lookupFs_eraseFs_self (fs : Fs) (p : String) :
    lookupFs (eraseFs fs p) p = none := by
  induction fs with
  | nil => simp [eraseFs, lookupFs]
  | cons kv rest ih =>
    obtain ⟨k, v⟩ := kv
    by_cases h : k = p <;> simp [eraseFs, lookupFs, h, ih]

lemma lookupFs_eraseFs_ne (fs : Fs) (p q : String) (h : q ≠ p) :
    lookupFs (eraseFs fs p) q = lookupFs fs q := by
  induction fs with
  | nil => simp [eraseFs, lookupFs]
  | cons kv rest ih =>
    obtain ⟨k, v⟩ := kv
    by_cases hk : k = p
    · subst hk
      simp [eraseFs, lookupFs, Ne.symm h, ih]
    · simp [eraseFs, lookupFs, hk, ih]

lemma lookupBool_setBool_self (l : List (String × Bool)) (k : String) (b : Bool) :
    lookupBool (setBool l k b) k = b := by
  induction l with
  | nil => simp [setBool, lookupBool]
  | cons kv rest ih =>
    obtain ⟨k', v⟩ := kv
    by_cases h : k' = k <;> simp [setBool, lookupBool, h, ih]

lemma FileMode.Perm_mod (m : FileMode) : m.Perm % 512 = m.Perm :=
  Nat.mod_mod_of_dvd _ (dvd_refl _)

lemma applyChmod_ofPerm_Perm (m : FileMode) :
    applyChmod (FileMode.ofPerm m.Perm) = FileMode.ofPerm m.Perm := by
  simp [applyChmod, FileMode.ofPerm, FileMode.Perm, Nat.mod_mod_of_dvd]

lemma applyChmod_Perm (m : FileMode) : (applyChmod m).Perm = m.Perm := by
  simp [applyChmod, FileMode.Perm, Nat.mod_mod_of_dvd]

lemma chownOp_eq (st : SysState) (p : String) (u g : Int) (e : Entry)
    (h : lookupFs st.fs p = some e) :
    chownOp st p u g = { st with fs := setFs st.fs p (chownEntry e u g) } := by
  simp [chownOp, h]

lemma chmodOp_eq (st : SysState) (p : String) (m : FileMode) (e : Entry)
    (h : lookupFs st.fs p = some e) :
    chmodOp st p m =
      { st with fs := setFs st.fs p (Entry.mk e.uid e.gid (applyChmod m) e.isDir e.contents) } := by
  simp [chmodOp, h]

lemma renameOp_eq (st : SysState) (src dst : String) (e : Entry)
    (h : lookupFs st.fs src = some e) :
    renameOp st src dst = { st with fs := setFs (eraseFs st.fs src) dst e } := by
  simp [renameOp, h]

lemma writeFileOp_eq_new (st : SysState) (p : String) (c : String) (m : FileMode)
    (uid gid : Nat) (h : lookupFs st.fs p = none) :
    writeFileOp st p c m uid gid =
      { st with fs := setFs st.fs p (Entry.mk uid gid (applyChmod m) false c) } := by
  simp [writeFileOp, h]

lemma copyPermissions_eq (st : SysState) (src dst : String) (e : Entry)
    (h : lookupFs st.fs src = some e) :
    copyPermissions st src dst =
      (none, chmodOp (chownOp st dst (Int.ofNat e.uid) (Int.ofNat e.gid)) dst
        (FileMode.ofPerm e.mode.Perm)) := by
  simp [copyPermissions, h]

lemma chownEntry_ofNat (e : Entry) (a bn : Nat) :
    chownEntry e (Int.ofNat a) (Int.ofNat bn) =
      Entry.mk a bn e.mode e.isDir e.contents := by
  have hu : (Int.ofNat a) ≠ -1 := by
    intro h
    rw [show Int.ofNat a = (a : Int) from rfl] at h
    omega
  have hg : (Int.ofNat bn) ≠ -1 := by
    intro h
    rw [show Int.ofNat bn = (bn : Int) from rfl] at h
    omega
  simp [chownEntry, hu, hg]

lemma contentsTask_spec (env : Env) (f : fileResource) (st : SysState)
    (c : String) (cur : Entry) (b : Bool) (st' : SysState)
    (hC : f.Contents = some c)
    (hcur : lookupFs st.fs f.Path = some cur)
    (hdiff : cur.contents ≠ c)
    (hrun : contentsTask env f st = (b, none, st')) :
    b = true
    ∧ lookupFs st'.fs f.Path = some (replacedEntry cur c)
    ∧ lookupFs st'.fs env.tmpName = none
    ∧ (∀ q, q ≠ f.Path → q ≠ env.tmpName → lookupFs st'.fs q = lookupFs st.fs q)
    ∧ st'.pkgs = st.pkgs ∧ st'.svcs = st.svcs
    ∧ env.tmpName ≠ f.Path := by
  rcases htmp : lookupFs st.fs env.tmpName with _ | e2
  case some =>
    simp [contentsTask, hC, hcur, htmp, hdiff] at hrun
  case none =>
    have hne : env.tmpName ≠ f.Path := by
      intro he
      rw [he, hcur] at htmp
      exact Option.noConfusion htmp
    simp only [contentsTask, hC, hcur, htmp, Option.isSome_none] at hrun
    rw [if_neg hdiff] at hrun
    simp only [Bool.false_eq_true, if_false] at hrun
    rw [writeFileOp_eq_new _ _ _ _ _ _ htmp] at hrun
    rw [copyPermissions_eq _ _ _ cur
      (by
        show lookupFs (setFs st.fs env.tmpName _) f.Path = some cur
        rw [lookupFs_setFs_ne _ _ _ _ (Ne.symm hne)]
        exact hcur)] at hrun
    simp only [] at hrun
    rw [chownOp_eq _ _ _ _ _ (by exact lookupFs_setFs_self _ _ _)] at hrun
    rw [chownEntry_ofNat] at hrun
    simp only [] at hrun
    rw [chmodOp_eq _ _ _ _ (by exact lookupFs_setFs_self _ _ _)] at hrun
    simp only [applyChmod_ofPerm_Perm] at hrun
    rw [renameOp_eq _ _ _ _ (by exact lookupFs_setFs_self _ _ _)] at hrun
    simp only [Prod.mk.injEq] at hrun
    obtain ⟨hb, -, hst⟩ := hrun
    subst hst
    refine ⟨hb.symm, ?_, ?_, ?_, rfl, rfl, hne⟩
    · rw [lookupFs_setFs_self]
      rfl
    · rw [lookupFs_setFs_ne _ _ _ _ hne, lookupFs_eraseFs_self]
    · intro q hq1 hq2
      rw [lookupFs_setFs_ne _ _ _ _ hq1, lookupFs_eraseFs_ne _ _ _ hq2,
        lookupFs_setFs_ne _ _ _ _ hq2, lookupFs_setFs_ne _ _ _ _ hq2,
        lookupFs_setFs_ne _ _ _ _ hq2]

/-- C3 — File content-update round-trip, frame, and cleanup (the
contents task of `fileResource.Run`, `file.go`, and `copyPermissions`,
`config.go`): when the contents step runs on an existing regular file
whose bytes differ from the desired contents and succeeds, the file
afterwards holds exactly the desired contents with the owner, group and
permission bits it had before (Go's `os.FileMode(stat.Mode)` round-trip
preserves exactly the nine permission bits), the temp name is gone, and
no other path or capability state is touched. -/
theorem contentsStep_roundtrip_frame (env : Env) (f : fileResource)
    (st : SysState) (c : String) (cur : Entry) (b : Bool) (st' : SysState)
    (hC : f.Contents = some c)
    (hcur : lookupFs st.fs f.Path = some cur)
    (hfile : cur.isDir = false)
    (hdiff : cur.contents ≠ c)
    (hrun : contentsTask env f st = (b, none, st')) :
    b = true
    ∧ lookupFs st'.fs f.Path = some (replacedEntry cur c)
    ∧ (replacedEntry cur c).contents = c
    ∧ (replacedEntry cur c).uid = cur.uid
    ∧ (replacedEntry cur c).gid = cur.gid
    ∧ (replacedEntry cur c).mode.Perm = cur.mode.Perm
    ∧ lookupFs st'.fs env.tmpName = none
    ∧ (∀ q, q ≠ f.Path → q ≠ env.tmpName → lookupFs st'.fs q = lookupFs st.fs q)
    ∧ st'.pkgs = st.pkgs ∧ st'.svcs = st.svcs := by
  obtain ⟨h1, h2, h3, h4, h5, h6, h7⟩ :=
    contentsTask_spec env f st c cur b st' hC hcur hdiff hrun
  refine ⟨h1, h2, rfl, rfl, rfl, ?_, h3, h4, h5, h6⟩
  simp [replacedEntry, FileMode.Perm, FileMode.ofPerm, Nat.mod_mod_of_dvd]

theorem contentsStep_roundtrip_frame_witness :
    lookupFs
      [("/etc/app.conf", Entry.mk 10 20 (FileMode.ofPerm 0o640) false "new")]
      "/etc/app.conf" =
      some (replacedEntry (Entry.mk 10 20 (FileMode.ofPerm 0o640) false "old")
        "new") :=
  (contentsStep_roundtrip_frame ⟨[], [], 0, 0, "/etc/.123.tmp"⟩
    ⟨"/etc/app.conf", some "new", none, none, none, none, ⟨""⟩⟩
    ⟨[("/etc/app.conf", Entry.mk 10 20 (FileMode.ofPerm 0o640) false "old")],
      [], []⟩
    "new" (Entry.mk 10 20 (FileMode.ofPerm 0o640) false "old") true
    ⟨[("/etc/app.conf", Entry.mk 10 20 (FileMode.ofPerm 0o640) false "new")],
      [], []⟩
    rfl (by decide) rfl (by decide) (by decide)).2.1

/-- C10 — mode reconciliation compares only the nine permission bits
(`modeTask`, the mode step of both `fileResource.Run`, `file.go`, and
`directoryResource.Run`, `directory.go`): with a desired mode set, if
the observed permission bits equal the desired ones the step is a
changed=false no-op — even when the desired mode differs in
setuid/setgid/sticky — and on mismatch a chmod applying the full
desired mode value is performed. -/
theorem modeTask_compares_only_perm_bits (path : String) (m obs : FileMode)
    (st : SysState) (e : Entry) :
    (obs.Perm = m.Perm → modeTask path (some m) obs st = (false, none, st))
    ∧ (obs.Perm ≠ m.Perm →
        modeTask path (some m) obs st = (true, none, chmodOp st path m))
    ∧ (lookupFs st.fs path = some e →
        lookupFs (chmodOp st path m).fs path =
          some (Entry.mk e.uid e.gid (applyChmod m) e.isDir e.contents)) := by
  refine ⟨fun h => by simp [modeTask, h], fun h => by simp [modeTask, h],
    fun h => ?_⟩
  rw [chmodOp_eq _ _ _ _ h]
  exact lookupFs_setFs_self _ _ _

theorem modeTask_compares_only_perm_bits_witness :
    modeTask "/srv/app" (some (FileMode.mk 0o644 true false false))
      (FileMode.ofPerm 0o644) (SysState.mk [] [] []) =
      (false, none, SysState.mk [] [] [])
    ∧ modeTask "/srv/app" (some (FileMode.ofPerm 0o600))
      (FileMode.ofPerm 0o644) (SysState.mk [] [] []) =
      (true, none, chmodOp (SysState.mk [] [] []) "/srv/app"
        (FileMode.ofPerm 0o600))
    ∧ lookupFs (chmodOp
        (SysState.mk [("/srv/app", Entry.mk 1 2 (FileMode.ofPerm 0o644) false "x")]
          [] [])
        "/srv/app" (FileMode.mk 0o640 true false false)).fs "/srv/app" =
      some (Entry.mk 1 2 (applyChmod (FileMode.mk 0o640 true false false))
        false "x") :=
  ⟨(modeTask_compares_only_perm_bits "/srv/app" (FileMode.mk 0o644 true false false)
      (FileMode.ofPerm 0o644) (SysState.mk [] [] [])
      (Entry.mk 0 0 (FileMode.ofPerm 0) false "")).1 (by decide),
   (modeTask_compares_only_perm_bits "/srv/app" (FileMode.ofPerm 0o600)
      (FileMode.ofPerm 0o644) (SysState.mk [] [] [])
      (Entry.mk 0 0 (FileMode.ofPerm 0) false "")).2.1 (by decide),
   (modeTask_compares_only_perm_bits "/srv/app" (FileMode.mk 0o640 true false false)
      (FileMode.ofPerm 0o644)
      (SysState.mk [("/srv/app", Entry.mk 1 2 (FileMode.ofPerm 0o644) false "x")]
        [] [])
      (Entry.mk 1 2 (FileMode.ofPerm 0o644) false "x")).2.2 (by decide)⟩

/-- C9 counterexample — a File declaration with desired state absent
over a path that exists as a directory does not remove it: the
reconciler fails with an "is a directory" error (the `IsDir` check of
`fileResource.Run` fires before the absent-state removal branch),
leaving the directory in place.  The claim as stated — "if the path
exists the reconciler removes it and reports changed=true" — is
therefore false at this input. -/
theorem fileRun_absent_directory_errors :
    fileResource.Run (Env.mk [] [] 0 0 "/tmp/.t")
      (fileResource.mk "/etc/app" none none none none (some "absent")
        (notifyResource.mk "svcA"))
      (SysState.mk [("/etc/app", Entry.mk 0 0 (FileMode.ofPerm 0o755) true "")]
        [] []) =
      (.error "/etc/app is a directory",
        SysState.mk [("/etc/app", Entry.mk 0 0 (FileMode.ofPerm 0o755) true "")]
          [] []) := by
  rfl

/-- C9 amended — File absent-state behavior (`fileResource.Run`,
`file.go`), for declarations with owner/group unset or resolvable: a
missing path is a changed=false no-op with no error; a path existing as
a non-directory is removed, the run reporting the change by returning
the notify target; a path existing as a directory is an "is a
directory" error and nothing is removed. -/
theorem fileRun_absent_behavior (env : Env) (f : fileResource) (st : SysState)
    (u g : Int)
    (habs : f.State = some "absent")
    (hres : getUserAndGroup env f.Owner f.Group = .ok (u, g)) :
    (lookupFs st.fs f.Path = none → fileResource.Run env f st = (.ok "", st))
    ∧ (∀ e, lookupFs st.fs f.Path = some e → e.isDir = false →
        fileResource.Run env f st =
          (.ok f.Notify.Service, removeOp st f.Path))
    ∧ (∀ e, lookupFs st.fs f.Path = some e → e.isDir = true →
        fileResource.Run env f st = (.error (f.Path ++ " is a directory"), st)) := by
  refine ⟨fun h => ?_, fun e he hd => ?_, fun e he hd => ?_⟩
  · simp [fileResource.Run, hres, habs, h]
  · simp [fileResource.Run, hres, habs, he, hd, runTasks, runTasksAux,
      removeTask, finishRun]
  · simp [fileResource.Run, hres, he, hd]

theorem fileRun_absent_behavior_witness :
    fileResource.Run (Env.mk [] [] 0 0 "/tmp/.t")
      (fileResource.mk "/gone" none none none none (some "absent")
        (notifyResource.mk "svcA"))
      (SysState.mk [] [] []) = (.ok "", SysState.mk [] [] [])
    ∧ fileResource.Run (Env.mk [] [] 0 0 "/tmp/.t")
      (fileResource.mk "/f" none none none none (some "absent")
        (notifyResource.mk "svcA"))
      (SysState.mk [("/f", Entry.mk 0 0 (FileMode.ofPerm 0o644) false "x")]
        [] []) =
      (.ok "svcA", removeOp
        (SysState.mk [("/f", Entry.mk 0 0 (FileMode.ofPerm 0o644) false "x")]
          [] []) "/f")
    ∧ fileResource.Run (Env.mk [] [] 0 0 "/tmp/.t")
      (fileResource.mk "/d" none none none none (some "absent")
        (notifyResource.mk "svcA"))
      (SysState.mk [("/d", Entry.mk 0 0 (FileMode.ofPerm 0o755) true "")]
        [] []) =
      (.error "/d is a directory",
        SysState.mk [("/d", Entry.mk 0 0 (FileMode.ofPerm 0o755) true "")]
          [] []) :=
  ⟨(fileRun_absent_behavior (Env.mk [] [] 0 0 "/tmp/.t")
      (fileResource.mk "/gone" none none none none (some "absent")
        (notifyResource.mk "svcA"))
      (SysState.mk [] [] []) (-1) (-1) rfl rfl).1 rfl,
   (fileRun_absent_behavior (Env.mk [] [] 0 0 "/tmp/.t")
      (fileResource.mk "/f" none none none none (some "absent")
        (notifyResource.mk "svcA"))
      (SysState.mk [("/f", Entry.mk 0 0 (FileMode.ofPerm 0o644) false "x")]
        [] []) (-1) (-1) rfl rfl).2.1
      (Entry.mk 0 0 (FileMode.ofPerm 0o644) false "x") (by decide) rfl,
   (fileRun_absent_behavior (Env.mk [] [] 0 0 "/tmp/.t")
      (fileResource.mk "/d" none none none none (some "absent")
        (notifyResource.mk "svcA"))
      (SysState.mk [("/d", Entry.mk 0 0 (FileMode.ofPerm 0o755) true "")]
        [] []) (-1) (-1) rfl rfl).2.2
      (Entry.mk 0 0 (FileMode.ofPerm 0o755) true "") (by decide) rfl⟩

lemma resolveId_shape (db : List (String × Nat)) (name : Option String)
    (kind : String) (u : Int) (h : resolveId db name kind = .ok u) :
    u = -1 ∨ ∃ a : Nat, u = Int.ofNat a := by
  cases name with
  | none =>
    simp [resolveId] at h
    exact Or.inl h.symm
  | some n =>
    by_cases hn : n = ""
    · simp [resolveId, hn] at h
      exact Or.inl h.symm
    · rcases hl : lookupId db n with _ | id
      · simp [resolveId, hn, hl] at h
      · simp [resolveId, hn, hl] at h
        exact Or.inr ⟨id, h.symm⟩

lemma getUserAndGroup_shape (env : Env) (o gn : Option String) (u g : Int)
    (h : getUserAndGroup env o gn = .ok (u, g)) :
    (u = -1 ∨ ∃ a : Nat, u = Int.ofNat a)
    ∧ (g = -1 ∨ ∃ a : Nat, g = Int.ofNat a) := by
  rcases hu : resolveId env.users o "user" with eu | uu
  · simp [getUserAndGroup, hu] at h
  · rcases hg : resolveId env.groups gn "group" with eg | gg
    · simp [getUserAndGroup, hu, hg] at h
    · simp [getUserAndGroup, hu, hg] at h
      obtain ⟨h1, h2⟩ := h
      exact ⟨h1 ▸ resolveId_shape _ _ _ _ hu, h2 ▸ resolveId_shape _ _ _ _ hg⟩

lemma ownerTask_run (path : String) (u : Int) (st : SysState) (e : Entry)
    (he : lookupFs st.fs path = some e)
    (hu : u = -1 ∨ ∃ a : Nat, u = Int.ofNat a) :
    ∃ b1 st1 e1, ownerTask path u e.uid st = (b1, none, st1)
      ∧ lookupFs st1.fs path = some e1
      ∧ (u = -1 ∨ (e1.uid : Int) = u)
      ∧ e1.gid = e.gid ∧ e1.mode = e.mode ∧ e1.isDir = e.isDir
      ∧ e1.contents = e.contents
      ∧ st1.pkgs = st.pkgs ∧ st1.svcs = st.svcs := by
  by_cases hskip : u = -1 ∨ (e.uid : Int) = u
  · exact ⟨false, st, e, by simp [ownerTask, hskip], he, hskip,
      rfl, rfl, rfl, rfl, rfl, rfl⟩
  · rcases hu with h | ⟨a, rfl⟩
    · exact absurd (Or.inl h) hskip
    · refine ⟨true, chownOp st path (Int.ofNat a) (-1),
        Entry.mk a e.gid e.mode e.isDir e.contents,
        by simp only [ownerTask]; rw [if_neg hskip], ?_, Or.inr (by simp),
        rfl, rfl, rfl, rfl, ?_, ?_⟩
      · rw [chownOp_eq _ _ _ _ _ he]
        have hc : chownEntry e (Int.ofNat a) (-1) =
            Entry.mk a e.gid e.mode e.isDir e.contents := by
          have hne : (Int.ofNat a) ≠ -1 := by
            intro hh
            rw [show Int.ofNat a = (a : Int) from rfl] at hh
            omega
          simp [chownEntry, hne]
        rw [hc]
        exact lookupFs_setFs_self _ _ _
      · rw [chownOp_eq _ _ _ _ _ he]
      · rw [chownOp_eq _ _ _ _ _ he]

lemma groupTask_run (path : String) (g : Int) (st : SysState) (e : Entry)
    (he : lookupFs st.fs path = some e)
    (hg : g = -1 ∨ ∃ a : Nat, g = Int.ofNat a) :
    ∃ b1 st1 e1, groupTask path g e.gid st = (b1, none, st1)
      ∧ lookupFs st1.fs path = some e1
      ∧ (g = -1 ∨ (e1.gid : Int) = g)
      ∧ e1.uid = e.uid ∧ e1.mode = e.mode ∧ e1.isDir = e.isDir
      ∧ e1.contents = e.contents
      ∧ st1.pkgs = st.pkgs ∧ st1.svcs = st.svcs := by
  by_cases hskip : g = -1 ∨ (e.gid : Int) = g
  · exact ⟨false, st, e, by simp [groupTask, hskip], he, hskip,
      rfl, rfl, rfl, rfl, rfl, rfl⟩
  · rcases hg with h | ⟨a, rfl⟩
    · exact absurd (Or.inl h) hskip
    · refine ⟨true, chownOp st path (-1) (Int.ofNat a),
        Entry.mk e.uid a e.mode e.isDir e.contents,
        by simp only [groupTask]; rw [if_neg hskip], ?_, Or.inr (by simp),
        rfl, rfl, rfl, rfl, ?_, ?_⟩
      · rw [chownOp_eq _ _ _ _ _ he]
        have hc : chownEntry e (-1) (Int.ofNat a) =
            Entry.mk e.uid a e.mode e.isDir e.contents := by
          have hne : (Int.ofNat a) ≠ -1 := by
            intro hh
            rw [show Int.ofNat a = (a : Int) from rfl] at hh
            omega
          simp [chownEntry, hne]
        rw [hc]
        exact lookupFs_setFs_self _ _ _
      · rw [chownOp_eq _ _ _ _ _ he]
      · rw [chownOp_eq _ _ _ _ _ he]

lemma modeTask_run (path : String) (mo : Option FileMode) (st : SysState)
    (e : Entry) (he : lookupFs st.fs path = some e) :
    ∃ b1 st1 e1, modeTask path mo e.mode st = (b1, none, st1)
      ∧ lookupFs st1.fs path = some e1
      ∧ (∀ m, mo = some m → e1.mode.Perm = m.Perm)
      ∧ e1.uid = e.uid ∧ e1.gid = e.gid ∧ e1.isDir = e.isDir
      ∧ e1.contents = e.contents
      ∧ st1.pkgs = st.pkgs ∧ st1.svcs = st.svcs := by
  cases mo with
  | none =>
    exact ⟨false, st, e, by simp [modeTask], he, by simp,
      rfl, rfl, rfl, rfl, rfl, rfl⟩
  | some m =>
    by_cases hp : e.mode.Perm = m.Perm
    · refine ⟨false, st, e, by simp [modeTask, hp], he, ?_,
        rfl, rfl, rfl, rfl, rfl, rfl⟩
      intro m' hm'
      cases hm'
      exact hp
    · refine ⟨true, chmodOp st path m,
        Entry.mk e.uid e.gid (applyChmod m) e.isDir e.contents,
        by simp [modeTask, hp], ?_, ?_, rfl, rfl, rfl, rfl, ?_, ?_⟩
      · rw [chmodOp_eq _ _ _ _ he]
        exact lookupFs_setFs_self _ _ _
      · intro m' hm'
        cases hm'
        exact applyChmod_Perm _
      · rw [chmodOp_eq _ _ _ _ he]
      · rw [chmodOp_eq _ _ _ _ he]

lemma contentsTask_run (env : Env) (f : fileResource) (st : SysState)
    (e : Entry) (b : Bool) (st' : SysState)
    (he : lookupFs st.fs f.Path = some e)
    (hdir : e.isDir = false)
    (hrun : contentsTask env f st = (b, none, st')) :
    ∃ e', lookupFs st'.fs f.Path = some e'
      ∧ (∀ c, f.Contents = some c → e'.contents = c)
      ∧ e'.uid = e.uid ∧ e'.gid = e.gid ∧ e'.mode.Perm = e.mode.Perm
      ∧ e'.isDir = false
      ∧ st'.pkgs = st.pkgs ∧ st'.svcs = st.svcs := by
  cases hC : f.Contents with
  | none =>
    simp only [contentsTask, hC] at hrun
    simp only [Prod.mk.injEq] at hrun
    obtain ⟨-, -, hst⟩ := hrun
    subst hst
    exact ⟨e, he, by simp [hC], rfl, rfl, rfl, hdir, rfl, rfl⟩
  | some c =>
    by_cases heq : e.contents = c
    · simp only [contentsTask, hC, he] at hrun
      rw [if_pos heq] at hrun
      simp only [Prod.mk.injEq] at hrun
      obtain ⟨-, -, hst⟩ := hrun
      subst hst
      refine ⟨e, he, ?_, rfl, rfl, rfl, hdir, rfl, rfl⟩
      intro c' hcc
      cases hcc
      exact heq
    · obtain ⟨hb, h2, h3, h4, h5, h6, h7⟩ :=
        contentsTask_spec env f st c e b st' hC he heq hrun
      refine ⟨replacedEntry e c, h2, ?_, rfl, rfl, ?_, rfl, h5, h6⟩
      · intro c' hcc
        cases hcc
        rfl
      · simp [replacedEntry, FileMode.Perm, FileMode.ofPerm, Nat.mod_mod_of_dvd]

lemma createChownUserTask_run (path : String) (u : Int) (st : SysState)
    (e : Entry) (he : lookupFs st.fs path = some e)
    (hu : u = -1 ∨ ∃ a : Nat, u = Int.ofNat a) :
    ∃ b1 st1 e1, createChownUserTask path u st = (b1, none, st1)
      ∧ lookupFs st1.fs path = some e1
      ∧ (u = -1 ∨ (e1.uid : Int) = u)
      ∧ e1.gid = e.gid ∧ e1.mode = e.mode ∧ e1.isDir = e.isDir
      ∧ e1.contents = e.contents
      ∧ st1.pkgs = st.pkgs ∧ st1.svcs = st.svcs := by
  rcases hu with h | ⟨a, rfl⟩
  · exact ⟨false, st, e, by simp [createChownUserTask, h], he, Or.inl h,
      rfl, rfl, rfl, rfl, rfl, rfl⟩
  · have hne : (Int.ofNat a) ≠ -1 := by
      intro hh
      rw [show Int.ofNat a = (a : Int) from rfl] at hh
      omega
    refine ⟨true, chownOp st path (Int.ofNat a) (-1),
      Entry.mk a e.gid e.mode e.isDir e.contents,
      by simp [createChownUserTask, hne], ?_, Or.inr (by simp),
      rfl, rfl, rfl, rfl, ?_, ?_⟩
    · rw [chownOp_eq _ _ _ _ _ he]
      have hc : chownEntry e (Int.ofNat a) (-1) =
          Entry.mk a e.gid e.mode e.isDir e.contents := by
        simp [chownEntry, hne]
      rw [hc]
      exact lookupFs_setFs_self _ _ _
    · rw [chownOp_eq _ _ _ _ _ he]
    · rw [chownOp_eq _ _ _ _ _ he]

lemma createChownGroupTask_run (path : String) (g : Int) (st : SysState)
    (e : Entry) (he : lookupFs st.fs path = some e)
    (hg : g = -1 ∨ ∃ a : Nat, g = Int.ofNat a) :
    ∃ b1 st1 e1, createChownGroupTask path g st = (b1, none, st1)
      ∧ lookupFs st1.fs path = some e1
      ∧ (g = -1 ∨ (e1.gid : Int) = g)
      ∧ e1.uid = e.uid ∧ e1.mode = e.mode ∧ e1.isDir = e.isDir
      ∧ e1.contents = e.contents
      ∧ st1.pkgs = st.pkgs ∧ st1.svcs = st.svcs := by
  rcases hg with h | ⟨a, rfl⟩
  · exact ⟨false, st, e, by simp [createChownGroupTask, h], he, Or.inl h,
      rfl, rfl, rfl, rfl, rfl, rfl⟩
  · have hne : (Int.ofNat a) ≠ -1 := by
      intro hh
      rw [show Int.ofNat a = (a : Int) from rfl] at hh
      omega
    refine ⟨true, chownOp st path (-1) (Int.ofNat a),
      Entry.mk e.uid a e.mode e.isDir e.contents,
      by simp [createChownGroupTask, hne], ?_, Or.inr (by simp),
      rfl, rfl, rfl, rfl, ?_, ?_⟩
    · rw [chownOp_eq _ _ _ _ _ he]
      have hc : chownEntry e (-1) (Int.ofNat a) =
          Entry.mk e.uid a e.mode e.isDir e.contents := by
        simp [chownEntry, hne]
      rw [hc]
      exact lookupFs_setFs_self _ _ _
    · rw [chownOp_eq _ _ _ _ _ he]
    · rw [chownOp_eq _ _ _ _ _ he]

lemma fileUpdate_noop (env : Env) (f : fileResource) (st : SysState)
    (u g : Int) (info : Entry)
    (hinfo : lookupFs st.fs f.Path = some info)
    (howner : u = -1 ∨ (info.uid : Int) = u)
    (hgroup : g = -1 ∨ (info.gid : Int) = g)
    (hmode : ∀ m, f.Mode = some m → info.mode.Perm = m.Perm)
    (hcont : ∀ c, f.Contents = some c → info.contents = c) :
    runTasks [ownerTask f.Path u info.uid, groupTask f.Path g info.gid,
      modeTask f.Path f.Mode info.mode, contentsTask env f] st =
      (false, none, st) := by
  have h1 : ownerTask f.Path u info.uid st = (false, none, st) := by
    simp only [ownerTask]
    rw [if_pos howner]
  have h2 : groupTask f.Path g info.gid st = (false, none, st) := by
    simp only [groupTask]
    rw [if_pos hgroup]
  have h3 : modeTask f.Path f.Mode info.mode st = (false, none, st) := by
    cases hm : f.Mode with
    | none => simp [modeTask]
    | some m =>
      simp only [modeTask]
      rw [if_pos (hmode m hm)]
  have h4 : contentsTask env f st = (false, none, st) := by
    cases hc : f.Contents with
    | none => simp [contentsTask, hc]
    | some c =>
      simp only [contentsTask, hc, hinfo]
      rw [if_pos (hcont c hc)]
  simp [runTasks, runTasksAux, h1, h2, h3, h4]

lemma dirUpdate_noop (f_Path : String) (mo : Option FileMode) (st : SysState)
    (u g : Int) (info : Entry)
    (howner : u = -1 ∨ (info.uid : Int) = u)
    (hgroup : g = -1 ∨ (info.gid : Int) = g)
    (hmode : ∀ m, mo = some m → info.mode.Perm = m.Perm) :
    runTasks [ownerTask f_Path u info.uid, groupTask f_Path g info.gid,
      modeTask f_Path mo info.mode] st = (false, none, st) := by
  have h1 : ownerTask f_Path u info.uid st = (false, none, st) := by
    simp only [ownerTask]
    rw [if_pos howner]
  have h2 : groupTask f_Path g info.gid st = (false, none, st) := by
    simp only [groupTask]
    rw [if_pos hgroup]
  have h3 : modeTask f_Path mo info.mode st = (false, none, st) := by
    cases hm : mo with
    | none => simp [modeTask]
    | some m =>
      simp only [modeTask]
      rw [if_pos (hmode m hm)]
  simp [runTasks, runTasksAux, h1, h2, h3]

lemma runTasksAux_cons {σ : Type} (t : ConvTask σ) (rest : List (ConvTask σ))
    (changed : Bool) (s : σ) (c : Bool) (s' : σ) (h : t s = (c, none, s')) :
    runTasksAux (t :: rest) changed s =
      runTasksAux rest (if c then true else changed) s' := by
  simp [runTasksAux, h]

lemma fileUpdate_establishes (env : Env) (f : fileResource) (st : SysState)
    (u g : Int) (info : Entry) (b : Bool) (st' : SysState)
    (hinfo : lookupFs st.fs f.Path = some info)
    (hdir : info.isDir = false)
    (hu : u = -1 ∨ ∃ a : Nat, u = Int.ofNat a)
    (hg : g = -1 ∨ ∃ a : Nat, g = Int.ofNat a)
    (hrun : runTasks [ownerTask f.Path u info.uid, groupTask f.Path g info.gid,
      modeTask f.Path f.Mode info.mode, contentsTask env f] st = (b, none, st')) :
    ∃ e', lookupFs st'.fs f.Path = some e'
      ∧ e'.isDir = false
      ∧ (u = -1 ∨ (e'.uid : Int) = u)
      ∧ (g = -1 ∨ (e'.gid : Int) = g)
      ∧ (∀ m, f.Mode = some m → e'.mode.Perm = m.Perm)
      ∧ (∀ c, f.Contents = some c → e'.contents = c) := by
  obtain ⟨b1, st1, e1, ht1, he1, hu1, hg1, hm1, hd1, hc1, -, -⟩ :=
    ownerTask_run f.Path u st info hinfo hu
  rw [runTasks, runTasksAux_cons _ _ _ _ _ _ ht1] at hrun
  rw [← hg1] at hrun
  obtain ⟨b2, st2, e2, ht2, he2, hg2, hu2, hm2, hd2, hc2, -, -⟩ :=
    groupTask_run f.Path g st1 e1 he1 hg
  rw [runTasksAux_cons _ _ _ _ _ _ ht2] at hrun
  rw [← hm1, ← hm2] at hrun
  obtain ⟨b3, st3, e3, ht3, he3, hm3, hu3, hg3, hd3, hc3, -, -⟩ :=
    modeTask_run f.Path f.Mode st2 e2 he2
  rw [runTasksAux_cons _ _ _ _ _ _ ht3] at hrun
  simp only [runTasksAux] at hrun
  rcases hct : contentsTask env f st3 with ⟨c4, err4, st4⟩
  rw [hct] at hrun
  cases err4 with
  | some e => simp at hrun
  | none =>
    simp only [Prod.mk.injEq] at hrun
    obtain ⟨-, -, hst⟩ := hrun
    subst hst
    have hd3' : e3.isDir = false := by rw [hd3, hd2, hd1]; exact hdir
    obtain ⟨e', hle', hcont', huid', hgid', hperm', hdir', -, -⟩ :=
      contentsTask_run env f st3 e3 c4 st4 he3 hd3' hct
    refine ⟨e', hle', hdir', ?_, ?_, ?_, hcont'⟩
    · rcases hu1 with h | h
      · exact Or.inl h
      · right
        rw [huid', hu3, hu2]
        exact h
    · rcases hg2 with h | h
      · exact Or.inl h
      · right
        rw [hgid', hg3]
        exact h
    · intro m hm
      rw [hperm']
      exact hm3 m hm

lemma dirUpdate_establishes (path : String) (mo : Option FileMode)
    (st : SysState) (u g : Int) (info : Entry) (b : Bool) (st' : SysState)
    (hinfo : lookupFs st.fs path = some info)
    (hu : u = -1 ∨ ∃ a : Nat, u = Int.ofNat a)
    (hg : g = -1 ∨ ∃ a : Nat, g = Int.ofNat a)
    (hrun : runTasks [ownerTask path u info.uid, groupTask path g info.gid,
      modeTask path mo info.mode] st = (b, none, st')) :
    ∃ e', lookupFs st'.fs path = some e'
      ∧ e'.isDir = info.isDir
      ∧ (u = -1 ∨ (e'.uid : Int) = u)
      ∧ (g = -1 ∨ (e'.gid : Int) = g)
      ∧ (∀ m, mo = some m → e'.mode.Perm = m.Perm) := by
  obtain ⟨b1, st1, e1, ht1, he1, hu1, hg1, hm1, hd1, hc1, -, -⟩ :=
    ownerTask_run path u st info hinfo hu
  rw [runTasks, runTasksAux_cons _ _ _ _ _ _ ht1] at hrun
  rw [← hg1] at hrun
  obtain ⟨b2, st2, e2, ht2, he2, hg2, hu2, hm2, hd2, hc2, -, -⟩ :=
    groupTask_run path g st1 e1 he1 hg
  rw [runTasksAux_cons _ _ _ _ _ _ ht2] at hrun
  rw [← hm1, ← hm2] at hrun
  obtain ⟨b3, st3, e3, ht3, he3, hm3, hu3, hg3, hd3, hc3, -, -⟩ :=
    modeTask_run path mo st2 e2 he2
  rw [runTasksAux_cons _ _ _ _ _ _ ht3] at hrun
  simp only [runTasksAux, Prod.mk.injEq] at hrun
  obtain ⟨-, -, hst⟩ := hrun
  subst hst
  refine ⟨e3, he3, ?_, ?_, ?_, hm3⟩
  · rw [hd3, hd2, hd1]
  · rcases hu1 with h | h
    · exact Or.inl h
    · right
      rw [hu3, hu2]
      exact h
  · rcases hg2 with h | h
    · exact Or.inl h
    · right
      rw [hg3]
      exact h

lemma fileCreate_establishes (env : Env) (f : fileResource) (mode : FileMode)
    (st : SysState) (u g : Int) (b : Bool) (st' : SysState)
    (hmiss : lookupFs st.fs f.Path = none)
    (hu : u = -1 ∨ ∃ a : Nat, u = Int.ofNat a)
    (hg : g = -1 ∨ ∃ a : Nat, g = Int.ofNat a)
    (hrun : runTasks [fileCreateTask env f mode, createChownUserTask f.Path u,
      createChownGroupTask f.Path g] st = (b, none, st')) :
    ∃ e', lookupFs st'.fs f.Path = some e'
      ∧ e'.isDir = false
      ∧ (u = -1 ∨ (e'.uid : Int) = u)
      ∧ (g = -1 ∨ (e'.gid : Int) = g)
      ∧ e'.mode.Perm = mode.Perm
      ∧ (∀ c, f.Contents = some c → e'.contents = c) := by
  have ht1 : fileCreateTask env f mode st = (true, none,
      { st with fs := setFs st.fs f.Path (createdFileEntry env f mode) }) := by
    simp only [fileCreateTask]
    rw [writeFileOp_eq_new _ _ _ _ _ _ hmiss]
    rfl
  have he0 : lookupFs (SysState.mk (setFs st.fs f.Path (createdFileEntry env f mode)) st.pkgs st.svcs).fs f.Path =
      some (createdFileEntry env f mode) := lookupFs_setFs_self _ _ _
  rw [runTasks, runTasksAux_cons _ _ _ _ _ _ ht1] at hrun
  obtain ⟨b2, st2, e2, ht2, he2, hu2, hg2, hm2, hd2, hc2, -, -⟩ :=
    createChownUserTask_run f.Path u _ (createdFileEntry env f mode) he0 hu
  rw [runTasksAux_cons _ _ _ _ _ _ ht2] at hrun
  obtain ⟨b3, st3, e3, ht3, he3, hg3, hu3, hm3, hd3, hc3, -, -⟩ :=
    createChownGroupTask_run f.Path g st2 e2 he2 hg
  rw [runTasksAux_cons _ _ _ _ _ _ ht3] at hrun
  simp only [runTasksAux, Prod.mk.injEq] at hrun
  obtain ⟨-, -, hst⟩ := hrun
  subst hst
  refine ⟨e3, he3, ?_, ?_, ?_, ?_, ?_⟩
  · rw [hd3, hd2]
    rfl
  · rcases hu2 with h | h
    · exact Or.inl h
    · right
      rw [hu3]
      exact h
  · exact hg3
  · rw [hm3, hm2]
    exact applyChmod_Perm mode
  · intro c hc
    rw [hc3, hc2]
    simp [createdFileEntry, hc]

lemma dirCreate_establishes (env : Env) (d : directoryResource) (mode : FileMode)
    (st : SysState) (u g : Int) (b : Bool) (st' : SysState)
    (hu : u = -1 ∨ ∃ a : Nat, u = Int.ofNat a)
    (hg : g = -1 ∨ ∃ a : Nat, g = Int.ofNat a)
    (hrun : runTasks [dirCreateTask env d mode, createChownUserTask d.Path u,
      createChownGroupTask d.Path g] st = (b, none, st')) :
    ∃ e', lookupFs st'.fs d.Path = some e'
      ∧ e'.isDir = true
      ∧ (u = -1 ∨ (e'.uid : Int) = u)
      ∧ (g = -1 ∨ (e'.gid : Int) = g)
      ∧ e'.mode.Perm = mode.Perm := by
  have ht1 : dirCreateTask env d mode st = (true, none,
      { st with fs := setFs st.fs d.Path (createdDirEntry env mode) }) := by
    simp only [dirCreateTask, mkdirOp]
    rfl
  have he0 : lookupFs (SysState.mk (setFs st.fs d.Path (createdDirEntry env mode)) st.pkgs st.svcs).fs d.Path =
      some (createdDirEntry env mode) := lookupFs_setFs_self _ _ _
  rw [runTasks, runTasksAux_cons _ _ _ _ _ _ ht1] at hrun
  obtain ⟨b2, st2, e2, ht2, he2, hu2, hg2, hm2, hd2, hc2, -, -⟩ :=
    createChownUserTask_run d.Path u _ (createdDirEntry env mode) he0 hu
  rw [runTasksAux_cons _ _ _ _ _ _ ht2] at hrun
  obtain ⟨b3, st3, e3, ht3, he3, hg3, hu3, hm3, hd3, hc3, -, -⟩ :=
    createChownGroupTask_run d.Path g st2 e2 he2 hg
  rw [runTasksAux_cons _ _ _ _ _ _ ht3] at hrun
  simp only [runTasksAux, Prod.mk.injEq] at hrun
  obtain ⟨-, -, hst⟩ := hrun
  subst hst
  refine ⟨e3, he3, ?_, ?_, ?_, ?_⟩
  · rw [hd3, hd2]
    rfl
  · rcases hu2 with h | h
    · exact Or.inl h
    · right
      rw [hu3]
      exact h
  · exact hg3
  · rw [hm3, hm2]
    exact applyChmod_Perm mode

lemma singleTaskRun_ok (notify : String) (t : ConvTask SysState) (st : SysState)
    (c : Bool) (st1 : SysState) (ht : t st = (c, none, st1)) :
    finishRun notify (runTasks [t] st) = (.ok (if c then notify else ""), st1) := by
  cases c <;> simp [runTasks, runTasksAux, ht, finishRun]

lemma singleTaskRun_noop (notify : String) (t : ConvTask SysState) (st : SysState)
    (st1 : SysState) (ht : t st = (false, none, st1)) :
    finishRun notify (runTasks [t] st) = (.ok "", st1) := by
  simp [runTasks, runTasksAux, ht, finishRun]

/-- C1 — Idempotence (`fileResource.Run`, `directoryResource.Run`,
`packageResource.Run`, `serviceResource.Run`): for every fully-specified
declaration whose first run succeeds, a second run of the same
reconciler on the resulting state succeeds with an empty notify target
and leaves the state unchanged; since a fully-specified declaration has
a non-empty notify target, the empty return certifies that every step
of the second run reported changed=false. -/
theorem reconcilers_idempotent (env : Env) (r : resourceDecl)
    (st st' : SysState) (n : String)
    (hfull : fullySpecified r = true)
    (h1 : resourceDecl.Run env r st = (.ok n, st')) :
    resourceDecl.Run env r st' = (.ok "", st') := by
  cases r with
  | pkg p =>
    simp only [resourceDecl.Run, packageResource.Run] at h1 ⊢
    by_cases hs1 : p.State = "installed"
    · cases hin : lookupBool st.pkgs p.Name with
      | true =>
        have ht : packageTask p st = (false, none, st) := by
          simp [packageTask, hs1, hin]
        rw [singleTaskRun_ok _ _ _ _ _ ht] at h1
        simp only [Prod.mk.injEq] at h1
        obtain ⟨-, hst⟩ := h1
        subst hst
        rw [singleTaskRun_noop _ _ _ _ ht]
      | false =>
        have ht : packageTask p st =
            (true, none, SysState.mk st.fs (setBool st.pkgs p.Name true) st.svcs) := by
          simp [packageTask, hs1, hin]
        rw [singleTaskRun_ok _ _ _ _ _ ht] at h1
        simp only [Prod.mk.injEq] at h1
        obtain ⟨-, hst⟩ := h1
        subst hst
        have ht2 : packageTask p
            (SysState.mk st.fs (setBool st.pkgs p.Name true) st.svcs) =
            (false, none, SysState.mk st.fs (setBool st.pkgs p.Name true) st.svcs) := by
          simp [packageTask, hs1, lookupBool_setBool_self]
        rw [singleTaskRun_noop _ _ _ _ ht2]
    · by_cases hs2 : p.State = "absent"
      · cases hin : lookupBool st.pkgs p.Name with
        | false =>
          have ht : packageTask p st = (false, none, st) := by
            simp [packageTask, hs1, hs2, hin]
          rw [singleTaskRun_ok _ _ _ _ _ ht] at h1
          simp only [Prod.mk.injEq] at h1
          obtain ⟨-, hst⟩ := h1
          subst hst
          rw [singleTaskRun_noop _ _ _ _ ht]
        | true =>
          have ht : packageTask p st =
              (true, none, SysState.mk st.fs (setBool st.pkgs p.Name false) st.svcs) := by
            simp [packageTask, hs1, hs2, hin]
          rw [singleTaskRun_ok _ _ _ _ _ ht] at h1
          simp only [Prod.mk.injEq] at h1
          obtain ⟨-, hst⟩ := h1
          subst hst
          have ht2 : packageTask p
              (SysState.mk st.fs (setBool st.pkgs p.Name false) st.svcs) =
              (false, none, SysState.mk st.fs (setBool st.pkgs p.Name false) st.svcs) := by
            simp [packageTask, hs1, hs2, lookupBool_setBool_self]
          rw [singleTaskRun_noop _ _ _ _ ht2]
      · have ht : packageTask p st =
            (false, some ("unexpected package state " ++ p.State), st) := by
          simp [packageTask, hs1, hs2]
        have herr : finishRun p.Notify.Service (runTasks [packageTask p] st) =
            (.error ("unexpected package state " ++ p.State), st) := by
          simp [runTasks, runTasksAux, ht, finishRun]
        rw [herr] at h1
        simp at h1
  | service s =>
    simp only [resourceDecl.Run, serviceResource.Run] at h1 ⊢
    by_cases hs1 : s.State = "running"
    · cases hin : lookupBool st.svcs s.Name with
      | true =>
        have ht : serviceTask s st = (false, none, st) := by
          simp [serviceTask, hs1, hin]
        rw [singleTaskRun_ok _ _ _ _ _ ht] at h1
        simp only [Prod.mk.injEq] at h1
        obtain ⟨-, hst⟩ := h1
        subst hst
        rw [singleTaskRun_noop _ _ _ _ ht]
      | false =>
        have ht : serviceTask s st =
            (true, none, SysState.mk st.fs st.pkgs (setBool st.svcs s.Name true)) := by
          simp [serviceTask, hs1, hin]
        rw [singleTaskRun_ok _ _ _ _ _ ht] at h1
        simp only [Prod.mk.injEq] at h1
        obtain ⟨-, hst⟩ := h1
        subst hst
        have ht2 : serviceTask s
            (SysState.mk st.fs st.pkgs (setBool st.svcs s.Name true)) =
            (false, none, SysState.mk st.fs st.pkgs (setBool st.svcs s.Name true)) := by
          simp [serviceTask, hs1, lookupBool_setBool_self]
        rw [singleTaskRun_noop _ _ _ _ ht2]
    · by_cases hs2 : s.State = "stopped"
      · cases hin : lookupBool st.svcs s.Name with
        | false =>
          have ht : serviceTask s st = (false, none, st) := by
            simp [serviceTask, hs1, hs2, hin]
          rw [singleTaskRun_ok _ _ _ _ _ ht] at h1
          simp only [Prod.mk.injEq] at h1
          obtain ⟨-, hst⟩ := h1
          subst hst
          rw [singleTaskRun_noop _ _ _ _ ht]
        | true =>
          have ht : serviceTask s st =
              (true, none, SysState.mk st.fs st.pkgs (setBool st.svcs s.Name false)) := by
            simp [serviceTask, hs1, hs2, hin]
          rw [singleTaskRun_ok _ _ _ _ _ ht] at h1
          simp only [Prod.mk.injEq] at h1
          obtain ⟨-, hst⟩ := h1
          subst hst
          have ht2 : serviceTask s
              (SysState.mk st.fs st.pkgs (setBool st.svcs s.Name false)) =
              (false, none, SysState.mk st.fs st.pkgs (setBool st.svcs s.Name false)) := by
            simp [serviceTask, hs1, hs2, lookupBool_setBool_self]
          rw [singleTaskRun_noop _ _ _ _ ht2]
      · have ht : serviceTask s st =
            (false, some ("unexpected service state " ++ s.State), st) := by
          simp [serviceTask, hs1, hs2]
        have herr : finishRun s.Notify.Service (runTasks [serviceTask s] st) =
            (.error ("unexpected service state " ++ s.State), st) := by
          simp [runTasks, runTasksAux, ht, finishRun]
        rw [herr] at h1
        simp at h1
  | file f =>
    simp only [resourceDecl.Run, fileResource.Run] at h1 ⊢
    rcases hug : getUserAndGroup env f.Owner f.Group with eug | ⟨u, g⟩
    · rw [hug] at h1
      simp at h1
    · rw [hug] at h1
      dsimp only at h1 ⊢
      obtain ⟨hu, hg⟩ := getUserAndGroup_shape env f.Owner f.Group u g hug
      rcases hstat : lookupFs st.fs f.Path with _ | info
      · -- path missing at the first run
        rw [hstat] at h1
        dsimp only at h1
        by_cases habs : f.State = some "absent"
        · rw [if_pos habs] at h1
          simp only [Prod.mk.injEq] at h1
          obtain ⟨-, hst⟩ := h1
          subst hst
          rw [hstat]
          dsimp only
          rw [if_pos habs]
        · rw [if_neg habs] at h1
          rcases hrt : runTasks [fileCreateTask env f
              (match f.Mode with | some m => m | none => defaultFileMode),
              createChownUserTask f.Path u,
              createChownGroupTask f.Path g] st with ⟨bb, err, st2⟩
          rw [hrt] at h1
          cases err with
          | some e => simp [finishRun] at h1
          | none =>
            simp only [finishRun, Prod.mk.injEq] at h1
            obtain ⟨-, hst⟩ := h1
            subst hst
            obtain ⟨e', he', hd', hu', hg', hm', hc'⟩ :=
              fileCreate_establishes env f _ st u g bb st2 hstat hu hg hrt
            rw [he']
            dsimp only
            rw [if_neg (by simp [hd'])]
            rw [if_neg habs]
            have hnoop := fileUpdate_noop env f st2 u g e' he' hu' hg'
              (by
                intro m hm
                rw [hm] at hm'
                exact hm')
              hc'
            rw [hnoop]
            simp [finishRun]
      · -- path exists at the first run
        rw [hstat] at h1
        dsimp only at h1
        by_cases hd : info.isDir = true
        · rw [if_pos hd] at h1
          simp at h1
        · rw [if_neg hd] at h1
          by_cases habs : f.State = some "absent"
          · rw [if_pos habs] at h1
            have ht : removeTask f.Path st = (true, none, removeOp st f.Path) := rfl
            rw [singleTaskRun_ok _ _ _ _ _ ht] at h1
            simp only [if_true, Prod.mk.injEq] at h1
            obtain ⟨-, hst⟩ := h1
            subst hst
            have hmiss : lookupFs (removeOp st f.Path).fs f.Path = none := by
              simp [removeOp, lookupFs_eraseFs_self]
            rw [hmiss]
            dsimp only
            rw [if_pos habs]
          · rw [if_neg habs] at h1
            rcases hrt : runTasks [ownerTask f.Path u info.uid,
                groupTask f.Path g info.gid,
                modeTask f.Path f.Mode info.mode,
                contentsTask env f] st with ⟨bb, err, st2⟩
            rw [hrt] at h1
            cases err with
            | some e => simp [finishRun] at h1
            | none =>
              simp only [finishRun, Prod.mk.injEq] at h1
              obtain ⟨-, hst⟩ := h1
              subst hst
              obtain ⟨e', he', hd', hu', hg', hm', hc'⟩ :=
                fileUpdate_establishes env f st u g info bb st2 hstat
                  (by simpa using hd) hu hg hrt
              rw [he']
              dsimp only
              rw [if_neg (by simp [hd'])]
              rw [if_neg habs]
              have hnoop := fileUpdate_noop env f st2 u g e' he' hu' hg' hm' hc'
              rw [hnoop]
              simp [finishRun]
  | directory d =>
    simp only [resourceDecl.Run, directoryResource.Run] at h1 ⊢
    rcases hug : getUserAndGroup env d.Owner d.Group with eug | ⟨u, g⟩
    · rw [hug] at h1
      simp at h1
    · rw [hug] at h1
      dsimp only at h1 ⊢
      obtain ⟨hu, hg⟩ := getUserAndGroup_shape env d.Owner d.Group u g hug
      rcases hstat : lookupFs st.fs d.Path with _ | info
      · rw [hstat] at h1
        dsimp only at h1
        rcases hrt : runTasks [dirCreateTask env d
            (match d.Mode with | some m => m | none => defaultDirMode),
            createChownUserTask d.Path u,
            createChownGroupTask d.Path g] st with ⟨bb, err, st2⟩
        rw [hrt] at h1
        cases err with
        | some e => simp [finishRun] at h1
        | none =>
          simp only [finishRun, Prod.mk.injEq] at h1
          obtain ⟨-, hst⟩ := h1
          subst hst
          obtain ⟨e', he', hd', hu', hg', hm'⟩ :=
            dirCreate_establishes env d _ st u g bb st2 hu hg hrt
          rw [he']
          dsimp only
          rw [if_neg (by simp [hd'])]
          have hnoop := dirUpdate_noop d.Path d.Mode st2 u g e' hu' hg'
            (by
              intro m hm
              rw [hm] at hm'
              exact hm')
          rw [hnoop]
          simp [finishRun]
      · rw [hstat] at h1
        dsimp only at h1
        by_cases hd : info.isDir = true
        · rw [if_neg (by simp [hd])] at h1
          rcases hrt : runTasks [ownerTask d.Path u info.uid,
              groupTask d.Path g info.gid,
              modeTask d.Path d.Mode info.mode] st with ⟨bb, err, st2⟩
          rw [hrt] at h1
          cases err with
          | some e => simp [finishRun] at h1
          | none =>
            simp only [finishRun, Prod.mk.injEq] at h1
            obtain ⟨-, hst⟩ := h1
            subst hst
            obtain ⟨e', he', hd', hu', hg', hm'⟩ :=
              dirUpdate_establishes d.Path d.Mode st u g info bb st2 hstat hu hg hrt
            rw [he']
            dsimp only
            rw [if_neg (by simp [hd', hd])]
            have hnoop := dirUpdate_noop d.Path d.Mode st2 u g e' hu' hg' hm'
            rw [hnoop]
            simp [finishRun]
        · rw [if_pos (by simp [hd])] at h1
          simp at h1

theorem reconcilers_idempotent_witness :
    fullySpecified (resourceDecl.pkg ⟨"nginx", "installed", ⟨"svcA"⟩⟩) = true
    ∧ resourceDecl.Run (Env.mk [] [] 0 0 "/t")
        (resourceDecl.pkg ⟨"nginx", "installed", ⟨"svcA"⟩⟩)
        (SysState.mk [] [] []) =
      (.ok "svcA", SysState.mk [] [("nginx", true)] [])
    ∧ resourceDecl.Run (Env.mk [] [] 0 0 "/t")
        (resourceDecl.pkg ⟨"nginx", "installed", ⟨"svcA"⟩⟩)
        (SysState.mk [] [("nginx", true)] []) =
      (.ok "", SysState.mk [] [("nginx", true)] []) :=
  ⟨by decide, by rfl,
    reconcilers_idempotent (Env.mk [] [] 0 0 "/t")
      (resourceDecl.pkg ⟨"nginx", "installed", ⟨"svcA"⟩⟩)
      (SysState.mk [] [] []) (SysState.mk [] [("nginx", true)] []) "svcA"
      (by decide) (by rfl)⟩
